import Mathlib

/-!
A shallow embedding of the miniboss service orchestrator (the `miniboss`
Python package) together with proofs about its behaviour.

Conventions used throughout:
* Python services compare equal by name (`Service.__eq__` compares the class
  and the `name` attribute), so graph edges are modelled as lists of names.
* Python dictionaries keyed by services are modelled as lists of agents whose
  service names are unique; `dict.pop` on a missing key raises `KeyError`,
  modelled by `Except`-valued operations.
* Recursive procedures whose termination is not structural are given an
  explicit fuel argument; running out of fuel yields a distinguished error
  value, so an `Except.ok` (or a specific error such as `keyError`) result
  certifies that the computation finished exactly as the unbounded original
  would.
-/

namespace Miniboss

/-- Service names; graph edges are stored as names because Python `Service`
equality compares names. -/
abbrev Name := String

/-- Constants of `types.AgentStatus`. -/
def AgentStatus.NULL : String := "null"

/-- `types.AgentStatus.IN_PROGRESS`. -/
def AgentStatus.IN_PROGRESS : String := "in-progress"

/-- `types.AgentStatus.STARTED`. -/
def AgentStatus.STARTED : String := "started"

/-- `types.AgentStatus.FAILED`. -/
def AgentStatus.FAILED : String := "failed"

/-- `types.AgentStatus.STOPPED`. -/
def AgentStatus.STOPPED : String := "stopped"

/-- The duck-typed view of a service consumed by `service_agent.ServiceAgent`
and `running_context.RunningContext`: a name, the resolved dependency names,
and the `dependants` attribute that `ServiceAgent.__init__` copies. -/
structure AgentService where
  name : Name
  dependencies : List Name
  dependants : List Name
  deriving Repr, DecidableEq

/-- `service_agent.ServiceAgent`: the per-service worker state relevant to
scheduling (`self.service`, `self.open_dependencies`, `self.open_dependants`,
`self.status`). -/
structure Agent where
  service : AgentService
  open_dependencies : List Name
  open_dependants : List Name
  status : String
  deriving Repr, DecidableEq

/-- `ServiceAgent.__init__`: copies `service.dependencies` and
`service.dependants` and starts with status NULL. -/
def mkAgent (s : AgentService) : Agent :=
  { service := s
    open_dependencies := s.dependencies
    open_dependants := s.dependants
    status := AgentStatus.NULL }

/-- `ServiceAgent.can_start`: `open_dependencies == [] and status == NULL`. -/
def Agent.can_start (a : Agent) : Bool :=
  a.open_dependencies == [] && a.status == AgentStatus.NULL

/-- `ServiceAgent.can_stop`: `open_dependants == [] and status == NULL`. -/
def Agent.can_stop (a : Agent) : Bool :=
  a.open_dependants == [] && a.status == AgentStatus.NULL

/-- `ServiceAgent.process_service_started`: drop `s` from the open
dependencies (one occurrence, as `list.remove` does). -/
def Agent.process_service_started (a : Agent) (s : Name) : Agent :=
  if s ∈ a.open_dependencies then
    { a with open_dependencies := a.open_dependencies.erase s }
  else a

/-- `ServiceAgent.process_service_stopped`: drop `s` from the open
dependants. -/
def Agent.process_service_stopped (a : Agent) (s : Name) : Agent :=
  if s ∈ a.open_dependants then
    { a with open_dependants := a.open_dependants.erase s }
  else a

/-- `running_context.RunningContext` state: the pending `agent_set` (a dict
keyed by service, hence unique names), `processed_services` and
`failed_services`. -/
structure RCState where
  agent_set : List Agent
  processed_services : List Name
  failed_services : List Name
  deriving Repr, DecidableEq

/-- `RunningContext.__init__`: one fresh agent per registry service, empty
processed and failed lists. -/
def RunningContext.init (services : List AgentService) : RCState :=
  { agent_set := services.map mkAgent
    processed_services := []
    failed_services := [] }

/-- `RunningContext.done`: `agent_set == {}`. -/
def RCState.done (st : RCState) : Bool := st.agent_set == []

/-- `RunningContext.context_failed`: `bool(failed_services)`. -/
def RCState.context_failed (st : RCState) : Bool := !st.failed_services.isEmpty

/-- Names of the services whose agents are still pending. -/
def RCState.pendingNames (st : RCState) : List Name :=
  st.agent_set.map (fun a => a.service.name)

/-- `RunningContext.ready_to_start`: pending agents with `can_start`. -/
def RCState.ready_to_start (st : RCState) : List Agent :=
  st.agent_set.filter Agent.can_start

/-- `RunningContext.ready_to_stop`: pending agents with `can_stop`. -/
def RCState.ready_to_stop (st : RCState) : List Agent :=
  st.agent_set.filter Agent.can_stop

/-- Errors of running-context operations: `keyError` models Python's
`KeyError` from `dict.pop` on a missing key; `outOfFuel` is the artificial
fuel-exhaustion marker (never produced when enough fuel is supplied). -/
inductive RCErr
  | keyError
  | outOfFuel
  deriving Repr, DecidableEq

/-- `dict.pop(service)` on `agent_set`: every agent for `s` is removed (the
dict holds at most one). -/
def RCState.popAgent (st : RCState) (s : Name) : List Agent :=
  st.agent_set.filter (fun a => a.service.name != s)

/-- `RunningContext.service_started`: pop the agent (KeyError when absent),
append to `processed_services`, notify the remaining agents. -/
def service_started (s : Name) (st : RCState) : Except RCErr RCState :=
  if st.pendingNames.contains s then
    Except.ok
      { agent_set := (st.popAgent s).map (fun a => a.process_service_started s)
        processed_services := st.processed_services ++ [s]
        failed_services := st.failed_services }
  else Except.error RCErr.keyError

/-- `RunningContext.service_stopped`: symmetric to `service_started` over the
open dependants. -/
def service_stopped (s : Name) (st : RCState) : Except RCErr RCState :=
  if st.pendingNames.contains s then
    Except.ok
      { agent_set := (st.popAgent s).map (fun a => a.process_service_stopped s)
        processed_services := st.processed_services ++ [s]
        failed_services := st.failed_services }
  else Except.error RCErr.keyError

/-- `RunningContext.service_failed` with fuel: pop the failed service
(KeyError when absent), append it to `failed_services`, then walk a snapshot
of the remaining pending services and recursively fail every one that lists
the failed service among its dependencies.  Each call consumes one unit of
fuel; `service_failed` below supplies more fuel than the recursion can ever
use, so `outOfFuel` is unreachable there. -/
def service_failed_fuel : Nat → Name → RCState → Except RCErr RCState
  | 0, _, _ => Except.error RCErr.outOfFuel
  | fuel+1, s, st =>
    if st.pendingNames.contains s then
      let st1 : RCState :=
        { agent_set := st.popAgent s
          processed_services := st.processed_services
          failed_services := st.failed_services ++ [s] }
      let services_left := st1.agent_set.map (fun a => a.service)
      services_left.foldlM
        (fun acc svc =>
          if s ∈ svc.dependencies then service_failed_fuel fuel svc.name acc
          else pure acc)
        st1
    else Except.error RCErr.keyError

/-- `RunningContext.service_failed`: the recursion depth is bounded by the
number of pending agents (every recursive call first removes one), so
`agent_set.length + 1` units of fuel always suffice. -/
def service_failed (s : Name) (st : RCState) : Except RCErr RCState :=
  service_failed_fuel (st.agent_set.length + 1) s st

/-- One driver step of `ServiceCollection.start_all`: the scheduler may pick
a pending agent; the agent is spawned only if it `can_start`, and on the
successful path it reports `service_started` back to the running context.
A name that is not pending or not ready leaves the state unchanged. -/
def start_step (st : RCState) (s : Name) : RCState :=
  match st.agent_set.find? (fun a => a.service.name == s) with
  | some a =>
    if a.can_start then
      match service_started s st with
      | Except.ok st' => st'
      | Except.error _ => st
    else st
  | none => st

/-- A whole successful `start_all` run: the scheduler examines candidate
services in an arbitrary order (the schedule), starting those that are ready.
Arbitrary interleavings of agent completions are covered by quantifying over
the schedule. -/
def start_all_run (st : RCState) (sched : List Name) : RCState :=
  sched.foldl start_step st

/-- One driver step of `ServiceCollection.stop_all`, symmetric to
`start_step` via `can_stop` and `service_stopped`. -/
def stop_step (st : RCState) (s : Name) : RCState :=
  match st.agent_set.find? (fun a => a.service.name == s) with
  | some a =>
    if a.can_stop then
      match service_stopped s st with
      | Except.ok st' => st'
      | Except.error _ => st
    else st
  | none => st

/-- A `stop_all` run over an arbitrary schedule. -/
def stop_all_run (st : RCState) (sched : List Name) : RCState :=
  sched.foldl stop_step st

/-- `b` occurs in `l` strictly before (an occurrence of) `a`. -/
def appearsBefore (l : List Name) (b a : Name) : Prop :=
  ∃ l1 l2, l = l1 ++ l2 ∧ b ∈ l1 ∧ a ∈ l2

/-- The partition invariant of a running context over a registry: the names
pending, processed and failed together are a permutation of the registry
names. -/
def partitionPerm (reg : List AgentService) (st : RCState) : Prop :=
  (st.pendingNames ++ st.processed_services ++ st.failed_services).Perm
    (reg.map (fun s => s.name))

/-- The induction invariant of a `start_all` run: pending agents carry
services of the registry whose dependencies already dropped from
`open_dependencies` are processed; processed services appear after all their
dependencies; and pending plus processed names form a permutation of the
registry names. -/
def startInv (services : List AgentService) (st : RCState) : Prop :=
  (∀ a ∈ st.agent_set, a.service ∈ services ∧
    (∀ b ∈ a.service.dependencies, b ∉ a.open_dependencies →
      b ∈ st.processed_services)) ∧
  (∀ s ∈ services, s.name ∈ st.processed_services →
    ∀ b ∈ s.dependencies, appearsBefore st.processed_services b s.name) ∧
  (st.pendingNames ++ st.processed_services).Perm (services.map (fun x => x.name))

/-! ## Service registry (`services.py`) -/

/-- A service definition as it enters `connect_services`: its name and the
names of its declared dependencies (dependency entries that are already
`Service` objects are likewise identified by their name, since `Service`
equality compares names). -/
structure SDef where
  name : Name
  dependencies : List Name
  deriving Repr, DecidableEq

/-- A registered service after `connect_services`: resolved dependency names
and the computed reverse edges, stored in the `_dependants` attribute. -/
structure RService where
  name : Name
  dependencies : List Name
  _dependants : List Name
  deriving Repr, DecidableEq

/-- `services.connect_services`: reject duplicate names, reject unresolved
dependency names, resolve the dependency lists, then record into each
service's `_dependants` every registered service that lists it among its
(resolved) dependencies.  The concrete error strings of the source are
collapsed to a tag; only success versus `ServiceLoadError` matters here. -/
def connect_services (services : List SDef) : Except String (List RService) :=
  if (services.map (fun s => s.name)).filter
      (fun n => 1 < (services.map (fun s => s.name)).count n) ≠ [] then
    Except.error "Repeated service names"
  else if services.any (fun s => s.dependencies.any
      (fun d => !(services.map (fun s => s.name)).contains d)) then
    Except.error "Dependency not among services"
  else
    Except.ok (services.map (fun s =>
      { name := s.name
        dependencies := s.dependencies
        _dependants :=
          (services.filter (fun x => s.name ∈ x.dependencies)).map (fun x => x.name) }))

/-- Resolved dependencies of a registered service, by name.  After
`connect_services` the lookup always succeeds. -/
def depsOf (reg : List RService) (n : Name) : List Name :=
  match reg.find? (fun r => r.name == n) with
  | some r => r.dependencies
  | none => []

/-- The `_dependants` of a registered service, by name. -/
def dependantsOf (reg : List RService) (n : Name) : List Name :=
  match reg.find? (fun r => r.name == n) with
  | some r => r._dependants
  | none => []

/-- The dependency edge relation of a registry: `edge reg a b` holds when
`a`'s resolved dependencies include `b` (a depends on b). -/
def edge (reg : List RService) (a b : Name) : Prop := b ∈ depsOf reg a

/-- Errors of the circular-dependency check: `circular` models
`ServiceLoadError("Circular dependency detected")`; `outOfFuel` is the
artificial fuel marker.  Fuel is consumed on every recursion step, and any
result other than `outOfFuel` certifies that the bounded traversal finished
exactly as the source's unbounded recursion would. -/
inductive CircErr
  | circular
  | outOfFuel
  deriving Repr, DecidableEq

/-- `go_up_dependencies` of `ServiceCollection.check_circular_dependencies`,
with the two mutually recursive phases folded into a sum argument:
`Sum.inl checked` enters a node (incrementing the shared visit counter),
`Sum.inr deps` walks the remaining dependency list of the node being
examined.  For each dependency: a name equal to `start` raises; next, if the
counter has reached the registry size `N`, the call returns silently
(`return`, not an error), abandoning the remaining dependencies; otherwise it
recurses into the dependency. -/
def go_up_aux (N : Nat) (reg : List RService) (start : Name) :
    Nat → (Name ⊕ List Name) → Nat → Except CircErr Nat
  | 0, _, _ => Except.error CircErr.outOfFuel
  | fuel+1, Sum.inl checked, count =>
    go_up_aux N reg start fuel (Sum.inr (depsOf reg checked)) (count + 1)
  | _+1, Sum.inr [], count => Except.ok count
  | fuel+1, Sum.inr (d :: rest), count =>
    if d = start then Except.error CircErr.circular
    else if count = N then Except.ok count
    else
      match go_up_aux N reg start fuel (Sum.inl d) count with
      | Except.error e => Except.error e
      | Except.ok count' => go_up_aux N reg start fuel (Sum.inr rest) count'

/-- `ServiceCollection.check_circular_dependencies`: for each service with at
least one outgoing edge, run the bounded DFS from it with a fresh counter. -/
def check_circular_dependencies (reg : List RService) (fuel : Nat) :
    Except CircErr Unit :=
  let N := reg.length
  let with_dependencies := reg.filter (fun r => !r.dependencies.isEmpty)
  with_dependencies.foldlM
    (fun _ r => (go_up_aux N reg r.name fuel (Sum.inl r.name) 0).map (fun _ => ()))
    ()

/-- The breadth-first loop of `ServiceCollection.update_for_base_service`:
pop the head of the queue into `required`, then append every dependant that
is in neither the current queue nor `required`. -/
def ufbs_loop (dependants : Name → List Name) :
    Nat → List Name → List Name → List Name
  | 0, _, required => required
  | _+1, [], required => required
  | fuel+1, s :: rest, required =>
    let required' := required ++ [s]
    let queue' := (dependants s).foldl
      (fun q d => if !q.contains d && !required'.contains d then q ++ [d] else q)
      rest
    ufbs_loop dependants fuel queue' required'

/-- `ServiceCollection.update_for_base_service`: raise for an unknown name,
else reduce the registry to the breadth-first closure of `service_name` over
the `_dependants` edges (the result lists the names kept, in the order they
were appended to `required`).  One pop per fuel unit; each pop moves a fresh
name into `required`, so `reg.length + 1` fuel always suffices. -/
def update_for_base_service (reg : List RService) (service_name : Name) :
    Except String (List Name) :=
  if !(reg.map (fun r => r.name)).contains service_name then
    Except.error "No such service"
  else
    Except.ok (ufbs_loop (dependantsOf reg) (reg.length + 1) [service_name] [])

/-- The list-valued attributes a registered `Service` object carries, as a
Python attribute dictionary: `connect_services` sets `dependencies` and
`_dependants`; neither `services.Service` nor its instances define an
attribute named `dependants`. -/
def RService.listAttrs (r : RService) : List (String × List Name) :=
  [("dependencies", r.dependencies), ("_dependants", r._dependants)]

/-- Python attribute lookup on a registered service for a list-valued
attribute: a name absent from the attribute dictionary raises
`AttributeError`. -/
def RService.getattrList (r : RService) (attr : String) :
    Except String (List Name) :=
  match r.listAttrs.find? (fun kv => kv.1 == attr) with
  | some kv => Except.ok kv.2
  | none => Except.error "AttributeError"

/-- `ServiceAgent.__init__` applied to a registered service: copy
`service.dependencies[:]`, then `service.dependants[:]`, by attribute
lookup, and start with status NULL.  The `dependants` lookup is the one the
registered attribute dictionary does not satisfy. -/
def mkAgentOfRService (r : RService) : Except String Agent :=
  match r.getattrList "dependencies" with
  | Except.error e => Except.error e
  | Except.ok deps =>
    match r.getattrList "dependants" with
    | Except.error e => Except.error e
    | Except.ok dnts =>
      Except.ok { service := ⟨r.name, deps, dnts⟩
                  open_dependencies := deps
                  open_dependants := dnts
                  status := AgentStatus.NULL }

/-- `RunningContext.__init__` over registered services, as `stop_all` (and
`start_all`) constructs it: one `ServiceAgent` per service, built in
iteration order inside a dict comprehension, so the first failing attribute
lookup propagates out of the construction. -/
def RunningContext.init_of_registry (reg : List RService) :
    Except String RCState :=
  match reg.mapM mkAgentOfRService with
  | Except.error e => Except.error e
  | Except.ok agents =>
    Except.ok { agent_set := agents
                processed_services := []
                failed_services := [] }

/-! ## Service agent (`service_agent.py`) -/

/-- Action constant `types.RunCondition.START`. -/
def RunCondition.START : String := "start"

/-- Action constant `types.RunCondition.PRE_START`. -/
def RunCondition.PRE_START : String := "pre-start"

/-- Action constant `types.RunCondition.POST_START`. -/
def RunCondition.POST_START : String := "post-start"

/-- Action constant `types.RunCondition.PING`. -/
def RunCondition.PING : String := "ping"

/-- Action constant `types.RunCondition.BUILD_IMAGE`. -/
def RunCondition.BUILD_IMAGE : String := "build-image"

/-- State constant `types.RunCondition.NULL`. -/
def RunCondition.NULL : String := "null"

/-- State constant `types.RunCondition.STARTED`. -/
def RunCondition.STARTED : String := "started"

/-- State constant `types.RunCondition.RUNNING`. -/
def RunCondition.RUNNING : String := "running"

/-- State constant `types.RunCondition.FAILED`. -/
def RunCondition.FAILED : String := "failed"

/-- `types.RunCondition`: the append-only action trace and the derived
state. -/
structure RunCondition where
  actions : List String
  state : String
  deriving Repr, DecidableEq

/-- `RunCondition.__init__`. -/
def RunCondition.init : RunCondition :=
  { actions := [], state := RunCondition.NULL }

/-- `RunCondition.already_running`. -/
def RunCondition.already_running (rc : RunCondition) : RunCondition :=
  { rc with state := RunCondition.RUNNING }

/-- `RunCondition.pinged`. -/
def RunCondition.pinged (rc : RunCondition) : RunCondition :=
  { actions := rc.actions ++ [RunCondition.PING], state := RunCondition.RUNNING }

/-- `RunCondition.pre_started`. -/
def RunCondition.pre_started (rc : RunCondition) : RunCondition :=
  { rc with actions := rc.actions ++ [RunCondition.PRE_START] }

/-- `RunCondition.post_started`. -/
def RunCondition.post_started (rc : RunCondition) : RunCondition :=
  { rc with actions := rc.actions ++ [RunCondition.POST_START] }

/-- `RunCondition.build_image`. -/
def RunCondition.mark_build_image (rc : RunCondition) : RunCondition :=
  { rc with actions := rc.actions ++ [RunCondition.BUILD_IMAGE] }

/-- `RunCondition.started`. -/
def RunCondition.mark_started (rc : RunCondition) : RunCondition :=
  { actions := rc.actions ++ [RunCondition.START], state := RunCondition.STARTED }

/-- `RunCondition.fail`. -/
def RunCondition.mark_fail (rc : RunCondition) : RunCondition :=
  { rc with state := RunCondition.FAILED }

/-- A Python environment value: the spec allows integers and strings.
`pyStr` is Python's `str()` coercion applied to it. -/
inductive PyVal
  | int (i : Int)
  | str (s : String)
  deriving Repr, DecidableEq

/-- Python `str()` on an env value (`str` of an `int` is its decimal form). -/
def pyStr : PyVal → String
  | PyVal.int i => toString i
  | PyVal.str s => s

/-- Insert-or-replace on an association list, which is how a Python dict
assignment `d[k] = v` behaves (existing key keeps its position). -/
def dictSet {α : Type} (d : List (String × α)) (k : String) (v : α) :
    List (String × α) :=
  if d.any (fun kv => kv.1 == k) then
    d.map (fun kv => if kv.1 == k then (k, v) else kv)
  else d ++ [(k, v)]

/-- `d.get(k)` on a Python dict (assoc list with unique keys). -/
def dictGet {α : Type} (d : List (String × α)) (k : String) : Option α :=
  (d.find? (fun kv => kv.1 == k)).map (fun kv => kv.2)

/-- An engine-reported container handle: id, status, the `Config.Env`
lines (`KEY=VALUE` strings, as the engine port guarantees) and the image
tags. -/
structure Container where
  id : String
  status : String
  env_lines : List String
  image_tags : List String
  deriving Repr, DecidableEq

/-- Split a character list at the first `=`, keeping the rest verbatim. -/
def splitFirstEq : List Char → List Char × List Char
  | [] => ([], [])
  | c :: rest =>
    if c = '=' then ([], rest)
    else
      let kv := splitFirstEq rest
      (c :: kv.1, kv.2)

/-- `key, value = env_line.split('=', 1)`: split at the first `=` (the
engine port guarantees every line contains one). -/
def split_env_line (line : String) : String × String :=
  let kv := splitFirstEq line.toList
  (String.mk kv.1, String.mk kv.2)

/-- `service_agent.container_env`: parse the env lines into a dict. -/
def container_env (c : Container) : List (String × String) :=
  c.env_lines.foldl
    (fun d line =>
      let kv := split_env_line line
      dictSet d kv.1 kv.2)
    []

/-- `service_agent.differing_keys`: keys of `specified` whose `str()`-coerced
value differs from the existing container's value (a key absent from
`existing` always differs, since `str(value) != None`). -/
def differing_keys (specified : List (String × PyVal))
    (existing : List (String × String)) : List String :=
  (specified.filter (fun kv => dictGet existing kv.1 ≠ some (pyStr kv.2))).map
    (fun kv => kv.1)

/-- The service-definition fields consumed by a START action, with `env`
taken after the context interpolation step (`Context.extrapolate_values`)
that `run_image` applies before inspecting existing containers. -/
structure SService where
  name : Name
  image : String
  env : List (String × PyVal)
  always_start_new : Bool
  build_from : Option String
  dockerfile : String
  deriving Repr, DecidableEq

/-- Observable effects of a START action: hook invocations, engine calls and
running-context notifications, in program order. -/
inductive Ev
  | pre_start_hook
  | post_start_hook
  | create_new
  | restart (id : String)
  | ping_poll
  | notify_failed
  | stop_remove
  | build (dir dockerfile tag : String)
  deriving Repr, DecidableEq

/-- The agent state mutated by a START action: run condition, agent status
and the emitted effect trace. -/
structure ARun where
  rc : RunCondition
  status : String
  events : List Ev
  deriving Repr, DecidableEq

/-- Agent state at the beginning of a START action. -/
def ARun.start : ARun :=
  { rc := RunCondition.init, status := AgentStatus.IN_PROGRESS, events := [] }

/-- `ServiceAgent._fail`: status FAILED, state FAILED, notify the running
context, and stop-and-remove the container when a START action is already in
the trace. -/
def agent_fail (ar : ARun) : ARun :=
  { rc := ar.rc.mark_fail
    status := AgentStatus.FAILED
    events := ar.events ++ [Ev.notify_failed] ++
      (if RunCondition.START ∈ ar.rc.actions then [Ev.stop_remove] else []) }

/-- `ServiceAgent._start_existing`: only the first reported container is
examined (the source marks handling of several as TODO).  `ping_ok` is the
outcome of the readiness poll, should one happen. -/
def start_existing (svc : SService) (existings : List Container)
    (ping_ok : Bool) (ar : ARun) : ARun :=
  match existings with
  | [] => ar
  | existing :: _ =>
    if existing.status == "running" then
      { ar with rc := ar.rc.already_running }
    else if existing.status == "exited" then
      let existing_env := container_env existing
      let diff_keys := differing_keys svc.env existing_env
      let start_new := svc.always_start_new
        || !(existing.image_tags.contains svc.image)
        || !diff_keys.isEmpty
      if !start_new then
        let ar1 : ARun :=
          { ar with rc := ar.rc.mark_started
                    events := ar.events ++ [Ev.restart existing.id] }
        let ar2 : ARun := { ar1 with events := ar1.events ++ [Ev.ping_poll] }
        if ping_ok then { ar2 with rc := ar2.rc.pinged }
        else agent_fail ar2
      else ar
    else ar

/-- `ServiceAgent.run_image`: reconcile against existing containers; when the
run condition is neither STARTED nor RUNNING afterwards, fall through to the
pre-start hook, container creation, readiness poll and post-start hook. -/
def run_image (svc : SService) (existings : List Container) (ping_ok : Bool)
    (ar : ARun) : ARun :=
  let ar1 := if existings.isEmpty then ar else start_existing svc existings ping_ok ar
  if !existings.isEmpty
      && (ar1.rc.state == RunCondition.STARTED
          || ar1.rc.state == RunCondition.RUNNING) then
    ar1
  else
    let ar2 : ARun :=
      { ar1 with events := ar1.events ++ [Ev.pre_start_hook]
                 rc := ar1.rc.pre_started }
    let ar3 : ARun :=
      { ar2 with events := ar2.events ++ [Ev.create_new]
                 rc := ar2.rc.mark_started }
    let ar4 : ARun := { ar3 with events := ar3.events ++ [Ev.ping_poll] }
    if ping_ok then
      let ar5 : ARun := { ar4 with rc := ar4.rc.pinged }
      { ar5 with events := ar5.events ++ [Ev.post_start_hook]
                 rc := ar5.rc.post_started }
    else agent_fail ar4

/-- `ServiceAgent.build_image`'s image tag:
`"{:s}-{:s}".format(self.service.name, time_tag)` where `time_tag` is
`datetime.now().strftime("%Y-%m-%d-%H%M")`, passed in here because wall-clock
time is an input. -/
def build_image_tag (svc_name time_tag : String) : String :=
  svc_name ++ "-" ++ time_tag

/-- Python truthiness of the `build_from` attribute (None or a string). -/
def pyTruthyOptStr : Option String → Bool
  | none => false
  | some s => !(s == "")

/-- The image-build step at the top of `ServiceAgent.start_container`: when
the service is named in `options.build`, or has a truthy `build_from` and an
image reference ending in `:latest`, call `build_image`.  There,
`os.path.join(self.options.run_dir, self.service.build_from)` raises
`TypeError` when `build_from` is `None` (reachable via `options.build`),
before any engine call and before BUILD-IMAGE is marked; otherwise the image
is built (engine call recorded with the joined build directory, the
dockerfile and the tag), BUILD-IMAGE is marked in the run condition and the
service's image reference is replaced by the tag. -/
def start_container_build (svc : SService) (options_build : List String)
    (run_dir time_tag : String) (ar : ARun) : Except String (SService × ARun) :=
  if options_build.contains svc.name
      || (pyTruthyOptStr svc.build_from && svc.image.endsWith ":latest") then
    match svc.build_from with
    | none => Except.error "TypeError"
    | some bdir =>
      let tag := build_image_tag svc.name time_tag
      let dir := run_dir ++ "/" ++ bdir
      let ar' : ARun :=
        { ar with events := ar.events ++ [Ev.build dir svc.dockerfile tag]
                  rc := ar.rc.mark_build_image }
      Except.ok ({ svc with image := tag }, ar')
  else Except.ok (svc, ar)

/-- The image tag the specification prescribes for a built service image:
`{name}-{group_name}-{YYYY-MM-DD-HHMM}`.  Stated from the spec's words, to be
compared against `build_image_tag`, which is translated from the source. -/
def spec_build_image_tag (svc_name group_name time_tag : String) : String :=
  svc_name ++ "-" ++ group_name ++ "-" ++ time_tag

/-! ## Readiness polling (`ServiceAgent.ping`) -/

/-- `ServiceAgent.ping`: starting from a monotonic clock reading, call the
service's ping while the elapsed time is below `timeout`.  `pingf i` is the
outcome of the `i`-th call (`Except.error` models an exception raised by the
ping, which propagates out of the loop); `delays i` is the real time that
passes between the `i`-th call and the next loop-condition check — at least
the 0.1 s sleep.  One fuel unit per call; `none` marks fuel exhaustion and
is unreachable for the fuel bound used in the theorems. -/
def ping_loop {E : Type} (pingf : Nat → Except E Bool) (timeout : ℚ)
    (delays : Nat → ℚ) : Nat → ℚ → Nat → Option (Except E Bool × Nat)
  | 0, _, _ => none
  | fuel+1, elapsed, i =>
    if elapsed < timeout then
      match pingf i with
      | Except.error e => some (Except.error e, i + 1)
      | Except.ok true => some (Except.ok true, i + 1)
      | Except.ok false => ping_loop pingf timeout delays fuel (elapsed + delays i) (i + 1)
    else some (Except.ok false, i)

/-- The call budget `ceil(timeout / 0.1)` as a natural number. -/
def ping_call_bound (timeout : ℚ) : Nat := (Int.ceil (timeout * 10)).toNat

/-! ## Context persistence (`context.py`) -/

/-- A JSON document, as the filesystem port of the engine stores it.  The
fidelity of Python's `json.dumps`/`json.load` on JSON-compatible values is a
property of the standard library, outside this repository; the port is
modelled at the document level. -/
inductive JVal
  | null
  | jbool (b : Bool)
  | jnum (n : Int)
  | jstr (s : String)
  | jarr (xs : List JVal)
  | jobj (kvs : List (String × JVal))

/-- `_Context.filename`. -/
def context_filename : String := ".miniboss-context"

/-- `pathlib.Path(directory) / filename`. -/
def context_path (dir : String) : String := dir ++ "/" ++ context_filename

/-- The filesystem port: a map from paths to stored JSON documents. -/
abbrev FileStore := List (String × JVal)

/-- `dict.update(**kvs)`: insert every pair in order, overwriting existing
keys. -/
def dict_update (d kvs : List (String × JVal)) : List (String × JVal) :=
  kvs.foldl (fun acc kv => dictSet acc kv.1 kv.2) d

/-- `_Context.save_to`: write the context as a JSON object to
`<dir>/.miniboss-context`. -/
def save_to (dir : String) (ctx : List (String × JVal)) (fs : FileStore) :
    FileStore :=
  dictSet fs (context_path dir) (JVal.jobj ctx)

/-- `_Context.load_from`: read `<dir>/.miniboss-context` and merge it into
the context with `update(**new_data)`; a missing file is benign
(log only); a non-object document would make `update` raise. -/
def load_from (dir : String) (fs : FileStore) (ctx : List (String × JVal)) :
    Except String (List (String × JVal)) :=
  match dictGet fs (context_path dir) with
  | none => Except.ok ctx
  | some (JVal.jobj kvs) => Except.ok (dict_update ctx kvs)
  | some _ => Except.error "TypeError"

/-! ## Concrete example inputs used by the theorems -/

/-- A service named in `options.build` whose `build_from` is unset: the
build branch is entered and `build_image` raises `TypeError`. -/
def exBuildSvc : SService :=
  { name := "web", image := "img", env := [], always_start_new := false
    build_from := none, dockerfile := "Dockerfile" }

/-- A service with a truthy `build_from`, triggering a build via
`options.build`. -/
def c7SvcA : SService :=
  { name := "web", image := "img:latest", env := [], always_start_new := false
    build_from := some "srv", dockerfile := "Dockerfile" }

/-- A two-service registry where `a` depends on `b`. -/
def c5Defs : List SDef :=
  [ { name := "a", dependencies := ["b"] },
    { name := "b", dependencies := [] } ]

/-- The registered form of `c5Defs`. -/
def c5RegA : RService := { name := "a", dependencies := ["b"], _dependants := [] }

/-- The registered form of `c5Defs`, second service. -/
def c5RegB : RService := { name := "b", dependencies := [], _dependants := ["a"] }

/-- A service whose env and image match `c3Cont`, with `always_start_new`
false. -/
def c3Svc : SService :=
  { name := "web", image := "img", env := [("K", PyVal.str "v")]
    always_start_new := false, build_from := none, dockerfile := "Dockerfile" }

/-- An exited container matching `c3Svc` (same env, image among the tags). -/
def c3Cont : Container :=
  { id := "cid", status := "exited", env_lines := ["K=v"], image_tags := ["img"] }

/-- A five-service registry containing the cycle `v1 → v2 → v1` (`v1` depends
on `v2` and vice versa), padded so that the bounded DFS's visit counter
reaches the registry size before the back edge to the start is examined. -/
def cycDefs : List SDef :=
  [ { name := "v1", dependencies := ["v2"] },
    { name := "v2", dependencies := ["c1", "c2", "v1"] },
    { name := "c1", dependencies := ["d"] },
    { name := "d", dependencies := ["c2"] },
    { name := "c2", dependencies := [] } ]

/-- The registered form of `cycDefs`. -/
def cycReg : List RService :=
  [ { name := "v1", dependencies := ["v2"], _dependants := ["v2"] },
    { name := "v2", dependencies := ["c1", "c2", "v1"], _dependants := ["v1"] },
    { name := "c1", dependencies := ["d"], _dependants := ["v2"] },
    { name := "d", dependencies := ["c2"], _dependants := ["c1"] },
    { name := "c2", dependencies := [], _dependants := ["v2", "d"] } ]

/-- A two-service cycle, which the check does detect. -/
def c4WDefs : List SDef :=
  [ { name := "a", dependencies := ["b"] }, { name := "b", dependencies := ["a"] } ]

/-- The registered form of `c4WDefs`. -/
def c4WReg : List RService :=
  [ { name := "a", dependencies := ["b"], _dependants := ["b"] },
    { name := "b", dependencies := ["a"], _dependants := ["a"] } ]

/-- A two-service registry (b depends on a) for the running-context
witnesses. -/
def c10Svcs : List AgentService :=
  [ { name := "a", dependencies := [], dependants := [] },
    { name := "b", dependencies := ["a"], dependants := [] } ]

/-- The state of the running context over `c10Svcs` after
`service_started("a")`. -/
def c10St1 : RCState :=
  { agent_set := [ { service := { name := "b", dependencies := ["a"], dependants := [] }
                     open_dependencies := []
                     open_dependants := []
                     status := "null" } ]
    processed_services := ["a"]
    failed_services := [] }

/-- A two-service registry for the start-order witness: `b` depends on `a`
and is listed first, so a schedule must start `a` before `b`. -/
def c1Svcs : List AgentService :=
  [ { name := "b", dependencies := ["a"], dependants := [] },
    { name := "a", dependencies := [], dependants := [] } ]

/-- A three-service chain for the reload-closure witness: `b` depends on
`a`, `c` depends on `b`. -/
def c6Defs : List SDef :=
  [ { name := "a", dependencies := [] },
    { name := "b", dependencies := ["a"] },
    { name := "c", dependencies := ["b"] } ]

/-- The registered form of `c6Defs`. -/
def c6Reg : List RService :=
  [ { name := "a", dependencies := [], _dependants := ["b"] },
    { name := "b", dependencies := ["a"], _dependants := ["c"] },
    { name := "c", dependencies := ["b"], _dependants := [] } ]

/-! ## Helper lemmas -/

theorem dictGet_cons_ne {α : Type} (p : String × α) (l : List (String × α))
    (k : String) (hp : (p.1 == k) = false) : dictGet (p :: l) k = dictGet l k := by
  simp [dictGet, List.find?_cons, hp]

theorem dictGet_dictSet {α : Type} (d : List (String × α)) (k : String) (v : α) :
    dictGet (dictSet d k v) k = some v := by
  induction d with
  | nil => simp [dictGet, dictSet]
  | cons p rest ih =>
    by_cases hp : p.1 = k
    · have hany : ((p :: rest).any fun kv => kv.1 == k) = true := by
        simp [List.any_cons, hp]
      have hmap : dictSet (p :: rest) k v
          = (if (p.1 == k) then (k, v) else p)
            :: rest.map (fun kv => if kv.1 == k then (k, v) else kv) := by
        simp [dictSet, hany]
      rw [hmap]
      simp [dictGet, List.find?_cons, hp]
    · have hp' : (p.1 == k) = false := by simp [hp]
      have hrel : ((p :: rest).any fun kv => kv.1 == k)
          = (rest.any fun kv => kv.1 == k) := by
        simp [List.any_cons, hp']
      cases hr : (rest.any fun kv => kv.1 == k) with
      | true =>
        have h1 : dictSet (p :: rest) k v
            = p :: rest.map (fun kv => if kv.1 == k then (k, v) else kv) := by
          simp [dictSet, hrel, hr, hp', hp]
        have h2 : dictSet rest k v
            = rest.map (fun kv => if kv.1 == k then (k, v) else kv) := by
          simp [dictSet, hr]
        rw [h1, dictGet_cons_ne _ _ _ hp', ← h2]
        exact ih
      | false =>
        have h1 : dictSet (p :: rest) k v = p :: (rest ++ [(k, v)]) := by
          simp [dictSet, hrel, hr]
        have h2 : dictSet rest k v = rest ++ [(k, v)] := by
          simp [dictSet, hr]
        rw [h1, dictGet_cons_ne _ _ _ hp', ← h2]
        exact ih

theorem dict_update_of_disjoint (kvs : List (String × JVal)) :
    ∀ acc : List (String × JVal), (kvs.map Prod.fst).Nodup →
    (∀ kv ∈ kvs, ∀ p ∈ acc, ¬ p.1 = kv.1) →
    dict_update acc kvs = acc ++ kvs := by
  induction kvs with
  | nil => intro acc _ _; simp [dict_update]
  | cons kv rest ih =>
    intro acc hnd hdisj
    have hset : dictSet acc kv.1 kv.2 = acc ++ [kv] := by
      have hfalse : acc.any (fun p => p.1 == kv.1) = false := by
        simp only [List.any_eq_false]
        intro p hp
        simpa using hdisj kv (by simp) p hp
      simp [dictSet, hfalse]
    have hstep : dict_update acc (kv :: rest) = dict_update (acc ++ [kv]) rest := by
      simp [dict_update, hset]
    have hdisj' : ∀ kv' ∈ rest, ∀ p ∈ acc ++ [kv], ¬ p.1 = kv'.1 := by
      intro kv' hkv' p hp
      rcases List.mem_append.1 hp with hpa | hpa
      · exact hdisj kv' (by simp [hkv']) p hpa
      · have hpkv : p = kv := by simpa using hpa
        rw [hpkv]
        have hnot : kv.1 ∉ rest.map Prod.fst := by
          simpa using (List.nodup_cons.1 hnd).1
        intro hcontra
        exact hnot (by simpa [hcontra] using List.mem_map_of_mem Prod.fst hkv')
    rw [hstep, ih (acc ++ [kv]) (by simpa using hnd.of_cons) hdisj']
    simp

theorem connect_services_ok_eq {defs : List SDef} {regs : List RService}
    (h : connect_services defs = Except.ok regs) :
    regs = defs.map (fun s =>
      { name := s.name
        dependencies := s.dependencies
        _dependants :=
          (defs.filter (fun x => s.name ∈ x.dependencies)).map (fun x => x.name) }) := by
  unfold connect_services at h
  split at h
  · cases h
  · split at h
    · cases h
    · exact (Except.ok.inj h).symm

theorem connect_services_ok_nodup {defs : List SDef} {regs : List RService}
    (h : connect_services defs = Except.ok regs) :
    (defs.map (fun s => s.name)).Nodup := by
  unfold connect_services at h
  split at h
  case isTrue => cases h
  case isFalse hne =>
    have hnil : ((defs.map (fun s => s.name)).filter
        (fun n => 1 < (defs.map (fun s => s.name)).count n)) = [] := by
      by_contra hc
      exact hne hc
    rw [List.nodup_iff_count_le_one]
    intro a
    by_cases ha : a ∈ defs.map (fun s => s.name)
    · have hcount := List.filter_eq_nil_iff.1 hnil a ha
      simp only [decide_eq_true_eq] at hcount
      omega
    · rw [List.count_eq_zero_of_not_mem ha]
      omega

/-! ## C9: context round trip -/

/-- C9.  Context round-trip: for a context with (necessarily unique, being a
dict) string keys and JSON-compatible values, `save_to(d)` followed by
`load_from(d)` on a fresh empty context restores exactly the same key/value
list, via the document stored at `<d>/.miniboss-context`. -/
theorem c9_context_round_trip (dir : String) (ctx : List (String × JVal))
    (fs : FileStore) (h : (ctx.map Prod.fst).Nodup) :
    load_from dir (save_to dir ctx fs) [] = Except.ok ctx := by
  have hget : dictGet (save_to dir ctx fs) (context_path dir) = some (JVal.jobj ctx) :=
    dictGet_dictSet fs (context_path dir) (JVal.jobj ctx)
  unfold load_from
  rw [hget]
  show Except.ok (dict_update [] ctx) = Except.ok ctx
  rw [dict_update_of_disjoint ctx [] h (by intro kv _ p hp; cases hp)]
  simp

/-- Witness for C9 at a concrete context. -/
theorem c9_context_round_trip_witness :
    ((([("a", JVal.jnum 1), ("b", JVal.jstr "x")].map Prod.fst).Nodup) ∧
      load_from "/dir" (save_to "/dir" [("a", JVal.jnum 1), ("b", JVal.jstr "x")] []) []
        = Except.ok [("a", JVal.jnum 1), ("b", JVal.jstr "x")]) :=
  ⟨by decide, c9_context_round_trip "/dir" [("a", JVal.jnum 1), ("b", JVal.jstr "x")] []
    (by decide)⟩

/-! ## C7: build-image tagging -/

/-- C7 counterexample: at a concrete input (a service with `build_from`
`"srv"`, named in `options.build`) the image built is tagged
`web-2030-01-02-0304` — only `{name}-{time}` — which differs from the
`{name}-{group_name}-{time}` tag the claim prescribes (here with group name
`grp`); and at a second input, a service named in `options.build` whose
`build_from` is `None`, no image is built at all: `build_image` raises
`TypeError` at `os.path.join(run_dir, None)`. -/
theorem c7_build_tag_counterexample :
    (start_container_build c7SvcA ["web"] "/r" "2030-01-02-0304" ARun.start).map
        (fun p => p.1.image) = Except.ok "web-2030-01-02-0304" ∧
    "web-2030-01-02-0304" ≠ spec_build_image_tag "web" "grp" "2030-01-02-0304" ∧
    start_container_build exBuildSvc ["web"] "/r" "2030-01-02-0304" ARun.start
      = Except.error "TypeError" :=
  ⟨rfl, by decide, rfl⟩

/-- C7 amended.  A service enters the build step during START exactly when
it is listed in `options.build` or has a truthy `build_from` and an image
reference ending in `:latest`.  In that step, if `build_from` is unset
(reachable via `options.build`) the build raises `TypeError` and nothing is
built, recorded or replaced; if `build_from` is set, the image is built and
tagged `{name}-{YYYY-MM-DD-HHMM}` (no group-name component), that tag
replaces the service's image reference, and BUILD-IMAGE is recorded in the
run-condition trace.  Outside the step nothing is built and nothing
changes. -/
theorem c7_build_image_tagging_amended (svc : SService) (obuild : List String)
    (run_dir time_tag : String) :
    ((obuild.contains svc.name
        || (pyTruthyOptStr svc.build_from && svc.image.endsWith ":latest")) = true →
      svc.build_from = none →
      start_container_build svc obuild run_dir time_tag ARun.start
        = Except.error "TypeError") ∧
    ((obuild.contains svc.name
        || (pyTruthyOptStr svc.build_from && svc.image.endsWith ":latest")) = true →
      ∀ bdir, svc.build_from = some bdir →
      ∃ res, start_container_build svc obuild run_dir time_tag ARun.start
          = Except.ok res ∧
        res.1.image = build_image_tag svc.name time_tag ∧
        res.2.rc.actions = [RunCondition.BUILD_IMAGE] ∧
        Ev.build (run_dir ++ "/" ++ bdir) svc.dockerfile
            (build_image_tag svc.name time_tag) ∈ res.2.events) ∧
    ((obuild.contains svc.name
        || (pyTruthyOptStr svc.build_from && svc.image.endsWith ":latest")) = false →
      start_container_build svc obuild run_dir time_tag ARun.start
        = Except.ok (svc, ARun.start)) := by
  refine ⟨?_, ?_, ?_⟩
  · intro hcond hbf
    unfold start_container_build
    rw [if_pos hcond, hbf]
  · intro hcond bdir hbf
    unfold start_container_build
    rw [if_pos hcond, hbf]
    exact ⟨_, rfl, rfl, rfl, by simp [ARun.start]⟩
  · intro hcond
    unfold start_container_build
    rw [if_neg (by rw [hcond]; simp)]

/-- Witness for C7 at a concrete service with `build_from` set, listed in
`options.build`. -/
theorem c7_build_image_tagging_witness :
    ((["web"].contains c7SvcA.name
        || (pyTruthyOptStr c7SvcA.build_from && c7SvcA.image.endsWith ":latest"))
      = true) ∧
    c7SvcA.build_from = some "srv" ∧
    (∃ res, start_container_build c7SvcA ["web"] "/r" "2030-01-02-0304" ARun.start
        = Except.ok res ∧
      res.1.image = build_image_tag c7SvcA.name "2030-01-02-0304" ∧
      res.2.rc.actions = [RunCondition.BUILD_IMAGE] ∧
      Ev.build ("/r" ++ "/" ++ "srv") c7SvcA.dockerfile
          (build_image_tag c7SvcA.name "2030-01-02-0304") ∈ res.2.events) :=
  ⟨by decide, rfl,
    (c7_build_image_tagging_amended c7SvcA ["web"] "/r" "2030-01-02-0304").2.1
      (by decide) "srv" rfl⟩

/-! ## C5: reverse-edge invariant -/

/-- C5 counterexample: after `connect_services` on the registry where `a`
depends on `b`, the claim instance `s := b`, `t := a` fails: `a` is recorded
among `b`'s dependants, but `b` does not list `a` among its resolved
dependencies. -/
theorem c5_dependants_counterexample :
    connect_services c5Defs = Except.ok [c5RegA, c5RegB] ∧
      "a" ∈ c5RegB._dependants ∧ "a" ∉ c5RegB.dependencies :=
  ⟨rfl, by decide, by decide⟩

/-- C5 amended.  After `connect_services` succeeds, for every pair of
registered services `s` and `t`, `t` is recorded among `s`'s dependants (the
`_dependants` attribute) if and only if `t` lists `s` among its resolved
dependencies. -/
theorem c5_reverse_edge_amended {defs : List SDef} {regs : List RService}
    (h : connect_services defs = Except.ok regs)
    (s t : RService) (hs : s ∈ regs) (ht : t ∈ regs) :
    t.name ∈ s._dependants ↔ s.name ∈ t.dependencies := by
  have he := connect_services_ok_eq h
  subst he
  rcases List.mem_map.1 hs with ⟨sd, hsd, rfl⟩
  rcases List.mem_map.1 ht with ⟨td, htd, rfl⟩
  simp only [List.mem_map, List.mem_filter, decide_eq_true_eq]
  constructor
  · rintro ⟨x, ⟨hx, hxdep⟩, hxn⟩
    have hxtd : x = td :=
      List.inj_on_of_nodup_map (connect_services_ok_nodup h) hx htd hxn
    subst hxtd
    exact hxdep
  · intro hdep
    exact ⟨td, ⟨htd, hdep⟩, rfl⟩

/-- Witness for C5 on the two-service registry. -/
theorem c5_reverse_edge_witness :
    connect_services c5Defs = Except.ok [c5RegA, c5RegB] ∧
      ("a" ∈ c5RegB._dependants ↔ "b" ∈ c5RegA.dependencies) := by
  refine ⟨rfl, ?_⟩
  have h : connect_services c5Defs = Except.ok [c5RegA, c5RegB] := rfl
  simpa using c5_reverse_edge_amended h c5RegB c5RegA (by decide) (by decide)

/-! ## C4: cycle rejection -/

theorem go_up_aux_circular_sound (N : Nat) (reg : List RService) (start : Name) :
    ∀ fuel : Nat,
      (∀ c count, go_up_aux N reg start fuel (Sum.inl c) count
          = Except.error CircErr.circular →
        ∃ x, Relation.ReflTransGen (edge reg) c x ∧ start ∈ depsOf reg x) ∧
      (∀ l count y, (∀ d ∈ l, d ∈ depsOf reg y) →
        go_up_aux N reg start fuel (Sum.inr l) count = Except.error CircErr.circular →
        ∃ x, Relation.ReflTransGen (edge reg) y x ∧ start ∈ depsOf reg x) := by
  intro fuel
  induction fuel with
  | zero =>
    constructor
    · intro c count h; simp [go_up_aux] at h
    · intro l count y _ h; simp [go_up_aux] at h
  | succ fuel ih =>
    constructor
    · intro c count h
      simp only [go_up_aux] at h
      exact ih.2 (depsOf reg c) (count + 1) c (fun d hd => hd) h
    · intro l count y hl h
      cases l with
      | nil => simp [go_up_aux] at h
      | cons d rest =>
        simp only [go_up_aux] at h
        by_cases hd : d = start
        · exact ⟨y, Relation.ReflTransGen.refl, hd ▸ hl d (by simp)⟩
        · rw [if_neg hd] at h
          by_cases hcnt : count = N
          · rw [if_pos hcnt] at h; cases h
          · rw [if_neg hcnt] at h
            cases hrec : go_up_aux N reg start fuel (Sum.inl d) count with
            | error e =>
              rw [hrec] at h
              cases e with
              | circular =>
                rcases ih.1 d count hrec with ⟨x, hx, hsx⟩
                exact ⟨x, Relation.ReflTransGen.head (hl d (by simp)) hx, hsx⟩
              | outOfFuel => exact absurd h (by simp)
            | ok count' =>
              rw [hrec] at h
              exact ih.2 rest count' y (fun d' hd' => hl d' (by simp [hd'])) h

theorem foldlM_unit_error {α : Type} (g : α → Except CircErr Unit) :
    ∀ l : List α, (l.foldlM (fun _ a => g a) () = Except.error CircErr.circular) →
      ∃ a ∈ l, g a = Except.error CircErr.circular := by
  intro l
  induction l with
  | nil => intro h; simp [List.foldlM, Pure.pure, Except.pure] at h
  | cons a rest ih =>
    intro h
    rw [List.foldlM_cons] at h
    cases hg : g a with
    | error e =>
      rw [hg] at h
      simp [Bind.bind, Except.bind] at h
      exact ⟨a, by simp, by rw [hg, h]⟩
    | ok u =>
      rw [hg] at h
      cases u
      simp only [Bind.bind, Except.bind] at h
      rcases ih h with ⟨b, hb, hgb⟩
      exact ⟨b, by simp [hb], hgb⟩

/-- C4 counterexample: `cycReg` (the registry of `cycDefs`) contains the
cycle `v1 → v2 → v1`, yet `check_circular_dependencies` returns normally:
from either start on the cycle, the visit counter reaches the registry size
while exploring the padding chain and the traversal returns silently, never
examining the back edge.  A fuel of 30 is more than the recursion consumes —
any result other than `outOfFuel` is fuel-independent. -/
theorem c4_cycle_missed_counterexample :
    connect_services cycDefs = Except.ok cycReg ∧
    check_circular_dependencies cycReg 30 = Except.ok () ∧
    Relation.TransGen (edge cycReg) "v1" "v1" :=
  ⟨rfl, rfl,
    Relation.TransGen.head (b := "v2") (show "v2" ∈ depsOf cycReg "v1" by decide)
      (Relation.TransGen.single (show "v1" ∈ depsOf cycReg "v2" by decide))⟩

/-- C4 amended.  The circular-dependency check is sound but incomplete: when
it raises `ServiceLoadError` the resolved dependency graph really contains a
cycle (through the start node of the offending search); but reaching the
visit budget (the registry size) makes the traversal return silently rather
than raise, so a registry containing a cycle can load without error. -/
theorem c4_cycle_detection_amended (reg : List RService) (fuel : Nat)
    (h : check_circular_dependencies reg fuel = Except.error CircErr.circular) :
    ∃ n, n ∈ reg.map (fun r => r.name) ∧ Relation.TransGen (edge reg) n n := by
  simp only [check_circular_dependencies] at h
  rcases foldlM_unit_error _ _ h with ⟨r, hrmem, hr⟩
  have hgo : go_up_aux reg.length reg r.name fuel (Sum.inl r.name) 0
      = Except.error CircErr.circular := by
    cases hx : go_up_aux reg.length reg r.name fuel (Sum.inl r.name) 0 with
    | error e => rw [hx] at hr; simp [Except.map] at hr; rw [hr]
    | ok v => rw [hx] at hr; simp [Except.map] at hr
  rcases (go_up_aux_circular_sound reg.length reg r.name fuel).1 r.name 0 hgo with
    ⟨x, hxr, hsx⟩
  exact ⟨r.name, List.mem_map_of_mem _ (List.mem_of_mem_filter hrmem),
    Relation.TransGen.tail' hxr hsx⟩

/-- Witness for C4 on the detected two-cycle. -/
theorem c4_cycle_detection_witness :
    connect_services c4WDefs = Except.ok c4WReg ∧
    (check_circular_dependencies c4WReg 30 = Except.error CircErr.circular) ∧
    ∃ n, n ∈ c4WReg.map (fun r => r.name) ∧ Relation.TransGen (edge c4WReg) n n :=
  ⟨rfl, rfl, c4_cycle_detection_amended c4WReg 30 rfl⟩

/-! ## C3: existing-container reconciliation -/

theorem run_image_running (svc : SService) (c : Container) (rest : List Container)
    (ping_ok : Bool) (hst : c.status = "running") :
    run_image svc (c :: rest) ping_ok ARun.start =
      { rc := { actions := [], state := RunCondition.RUNNING }
        status := AgentStatus.IN_PROGRESS, events := [] } := by
  simp [run_image, start_existing, hst, RunCondition.already_running, ARun.start,
    RunCondition.init, RunCondition.RUNNING, RunCondition.STARTED, AgentStatus.IN_PROGRESS,
    RunCondition.NULL]

theorem run_image_exited_startnew (svc : SService) (c : Container) (rest : List Container)
    (ping_ok : Bool) (hst : c.status = "exited")
    (hC : ¬ ((svc.always_start_new = false ∧ svc.image ∈ c.image_tags) ∧
        differing_keys svc.env (container_env c) = [])) :
    run_image svc (c :: rest) ping_ok ARun.start =
      if ping_ok then
        { rc := { actions := [RunCondition.PRE_START, RunCondition.START,
                    RunCondition.PING, RunCondition.POST_START]
                  state := RunCondition.RUNNING }
          status := AgentStatus.IN_PROGRESS
          events := [Ev.pre_start_hook, Ev.create_new, Ev.ping_poll, Ev.post_start_hook] }
      else
        { rc := { actions := [RunCondition.PRE_START, RunCondition.START]
                  state := RunCondition.FAILED }
          status := AgentStatus.FAILED
          events := [Ev.pre_start_hook, Ev.create_new, Ev.ping_poll,
            Ev.notify_failed, Ev.stop_remove] } := by
  cases ping_ok with
  | true =>
    simp [run_image, start_existing, hst, hC, ARun.start, RunCondition.init,
      RunCondition.pre_started, RunCondition.mark_started, RunCondition.pinged,
      RunCondition.post_started, agent_fail, RunCondition.START, RunCondition.PRE_START,
      RunCondition.PING, RunCondition.POST_START, RunCondition.NULL,
      RunCondition.STARTED, RunCondition.FAILED, RunCondition.RUNNING]
  | false =>
    simp [run_image, start_existing, hst, hC, ARun.start, RunCondition.init,
      RunCondition.pre_started, RunCondition.mark_started, RunCondition.pinged,
      RunCondition.post_started, agent_fail, RunCondition.mark_fail,
      RunCondition.START, RunCondition.PRE_START, RunCondition.NULL,
      RunCondition.STARTED, RunCondition.FAILED, RunCondition.RUNNING]

theorem run_image_exited_reuse_pingok (svc : SService) (c : Container)
    (rest : List Container) (hst : c.status = "exited")
    (hC : (svc.always_start_new = false ∧ svc.image ∈ c.image_tags) ∧
        differing_keys svc.env (container_env c) = []) :
    run_image svc (c :: rest) true ARun.start =
      { rc := { actions := [RunCondition.START, RunCondition.PING]
                state := RunCondition.RUNNING }
        status := AgentStatus.IN_PROGRESS
        events := [Ev.restart c.id, Ev.ping_poll] } := by
  simp [run_image, start_existing, hst, hC.1.1, hC.1.2, hC.2, ARun.start,
    RunCondition.init, RunCondition.mark_started, RunCondition.pinged,
    RunCondition.START, RunCondition.PING, RunCondition.NULL,
    RunCondition.STARTED, RunCondition.FAILED, RunCondition.RUNNING]

theorem run_image_exited_reuse_pingfail (svc : SService) (c : Container)
    (rest : List Container) (hst : c.status = "exited")
    (hC : (svc.always_start_new = false ∧ svc.image ∈ c.image_tags) ∧
        differing_keys svc.env (container_env c) = []) :
    run_image svc (c :: rest) false ARun.start =
      { rc := { actions := [RunCondition.START, RunCondition.PRE_START, RunCondition.START]
                state := RunCondition.FAILED }
        status := AgentStatus.FAILED
        events := [Ev.restart c.id, Ev.ping_poll, Ev.notify_failed, Ev.stop_remove,
          Ev.pre_start_hook, Ev.create_new, Ev.ping_poll, Ev.notify_failed,
          Ev.stop_remove] } := by
  simp [run_image, start_existing, hst, hC.1.1, hC.1.2, hC.2, ARun.start,
    RunCondition.init, RunCondition.mark_started, RunCondition.pinged, agent_fail,
    RunCondition.mark_fail, RunCondition.pre_started,
    RunCondition.START, RunCondition.PRE_START, RunCondition.NULL,
    RunCondition.STARTED, RunCondition.FAILED, RunCondition.RUNNING]

/-- C3 counterexample: an exited container whose env matches the service's,
whose image tags contain the service's image, with `always_start_new` false —
so the claim's condition for creating a new container is false — still leads
to a new container being created when the readiness poll after the restart
fails: the agent fails, falls through, and runs the fresh-creation path. -/
theorem c3_reuse_pingfail_counterexample :
    c3Cont.status = "exited" ∧
    c3Svc.always_start_new = false ∧
    c3Svc.image ∈ c3Cont.image_tags ∧
    differing_keys c3Svc.env (container_env c3Cont) = [] ∧
    Ev.create_new ∈ (run_image c3Svc [c3Cont] false ARun.start).events :=
  ⟨rfl, rfl, by decide, by decide, by decide⟩

/-- C3 amended.  During START with existing containers reported: if the first
is running, the agent ends in state RUNNING having emitted no effects (no
container creation, no pre/post-start hook, no readiness poll).  If the first
is exited: when `always_start_new` is set, or the service's image is not
among the container's image tags, or some env key differs under string
coercion, a new container is created and the old one is not restarted;
otherwise the existing container is restarted by its id, START is marked,
readiness is polled and the post-start hook is skipped — and when that poll
fails, the agent is marked failed and then also falls through to create a new
container.  Hence a new container is created iff the condition holds or the
readiness poll fails. -/
theorem c3_existing_reconciliation_amended (svc : SService) (c : Container)
    (rest : List Container) (ping_ok : Bool) :
    (c.status = "running" →
      (run_image svc (c :: rest) ping_ok ARun.start).rc.state = RunCondition.RUNNING ∧
      (run_image svc (c :: rest) ping_ok ARun.start).events = []) ∧
    (c.status = "exited" →
      (¬ ((svc.always_start_new = false ∧ svc.image ∈ c.image_tags) ∧
          differing_keys svc.env (container_env c) = []) →
        Ev.create_new ∈ (run_image svc (c :: rest) ping_ok ARun.start).events ∧
        ∀ cid, Ev.restart cid ∉ (run_image svc (c :: rest) ping_ok ARun.start).events) ∧
      (((svc.always_start_new = false ∧ svc.image ∈ c.image_tags) ∧
          differing_keys svc.env (container_env c) = []) →
        Ev.restart c.id ∈ (run_image svc (c :: rest) ping_ok ARun.start).events ∧
        RunCondition.START ∈ (run_image svc (c :: rest) ping_ok ARun.start).rc.actions ∧
        Ev.ping_poll ∈ (run_image svc (c :: rest) ping_ok ARun.start).events ∧
        (ping_ok = true →
          (run_image svc (c :: rest) ping_ok ARun.start).events
            = [Ev.restart c.id, Ev.ping_poll] ∧
          (run_image svc (c :: rest) ping_ok ARun.start).rc.state
            = RunCondition.RUNNING) ∧
        (ping_ok = false →
          Ev.create_new ∈ (run_image svc (c :: rest) ping_ok ARun.start).events ∧
          (run_image svc (c :: rest) ping_ok ARun.start).status = AgentStatus.FAILED)) ∧
      (Ev.create_new ∈ (run_image svc (c :: rest) ping_ok ARun.start).events ↔
        (¬ ((svc.always_start_new = false ∧ svc.image ∈ c.image_tags) ∧
            differing_keys svc.env (container_env c) = []) ∨ ping_ok = false))) := by
  refine ⟨?_, ?_⟩
  · intro hst
    rw [run_image_running svc c rest ping_ok hst]
    exact ⟨rfl, rfl⟩
  · intro hst
    refine ⟨?_, ?_, ?_⟩
    · intro hC
      rw [run_image_exited_startnew svc c rest ping_ok hst hC]
      cases ping_ok <;> simp
    · intro hC
      cases ping_ok with
      | true =>
        rw [run_image_exited_reuse_pingok svc c rest hst hC]
        refine ⟨by simp, by simp, by simp, fun _ => ⟨rfl, rfl⟩, by simp⟩
      | false =>
        rw [run_image_exited_reuse_pingfail svc c rest hst hC]
        refine ⟨by simp, by simp, by simp, by simp, fun _ => ⟨by simp, rfl⟩⟩
    · by_cases hC : ((svc.always_start_new = false ∧ svc.image ∈ c.image_tags) ∧
          differing_keys svc.env (container_env c) = [])
      · cases ping_ok with
        | true =>
          rw [run_image_exited_reuse_pingok svc c rest hst hC]
          simp [hC]
        | false =>
          rw [run_image_exited_reuse_pingfail svc c rest hst hC]
          simp
      · rw [run_image_exited_startnew svc c rest ping_ok hst hC]
        cases ping_ok <;> simp [hC]

/-- Witness for C3 on the matching exited container with a successful poll:
the container is restarted by id and polled, and nothing else happens. -/
theorem c3_existing_reconciliation_witness :
    c3Cont.status = "exited" ∧
    ((c3Svc.always_start_new = false ∧ c3Svc.image ∈ c3Cont.image_tags) ∧
      differing_keys c3Svc.env (container_env c3Cont) = []) ∧
    (run_image c3Svc [c3Cont] true ARun.start).events
      = [Ev.restart c3Cont.id, Ev.ping_poll] ∧
    (run_image c3Svc [c3Cont] true ARun.start).rc.state = RunCondition.RUNNING :=
  ⟨rfl, by decide,
    ((((c3_existing_reconciliation_amended c3Svc c3Cont [] true).2 rfl).2.1
      (by decide)).2.2.2.1 rfl).1,
    ((((c3_existing_reconciliation_amended c3Svc c3Cont [] true).2 rfl).2.1
      (by decide)).2.2.2.1 rfl).2⟩

/-! ## C10: running-context partition invariant -/

theorem filter_ne_append_self_perm (l : List Name) (s : Name) (h : l.count s = 1) :
    ((l.filter (fun x => x != s)) ++ [s]).Perm l := by
  induction l with
  | nil => simp at h
  | cons x xs ih =>
    by_cases hx : x = s
    · subst hx
      have hc : xs.count x = 0 := by
        rw [List.count_cons_self] at h
        omega
      have hnot : x ∉ xs := by
        intro hmem
        have := List.count_pos_iff.2 hmem
        omega
      have hfx : xs.filter (fun y => y != x) = xs := by
        apply List.filter_eq_self.2
        intro y hy
        have hyx : y ≠ x := fun he => hnot (he ▸ hy)
        simp [hyx]
      simp [List.filter_cons, hfx]
    · have hcount : xs.count s = 1 := by
        rw [List.count_cons_of_ne (show s ≠ x from fun he => hx he.symm)] at h
        exact h
      have hfil : (x :: xs).filter (fun y => y != s)
          = x :: xs.filter (fun y => y != s) := by
        simp [List.filter_cons, hx]
      rw [hfil]
      exact (ih hcount).cons x

theorem map_name_filter (l : List Agent) (s : Name) :
    ((l.filter (fun a => a.service.name != s)).map (fun a => a.service.name))
      = (l.map (fun a => a.service.name)).filter (fun n => n != s) := by
  induction l with
  | nil => simp
  | cons a rest ih =>
    by_cases ha : a.service.name = s
    · simp [List.filter_cons, ha, ih]
    · simp [List.filter_cons, ha, ih]

theorem pendingNames_pop (st : RCState) (s : Name) :
    ((st.popAgent s).map (fun a => a.service.name))
      = st.pendingNames.filter (fun n => n != s) :=
  map_name_filter st.agent_set s

theorem count_one_of_mem_perm {pend processed failed regnames : List Name} {s : Name}
    (hperm : (pend ++ processed ++ failed).Perm regnames) (hnd : regnames.Nodup)
    (hs : s ∈ pend) :
    pend.count s = 1 ∧ processed.count s = 0 ∧ failed.count s = 0 := by
  have hle : regnames.count s ≤ 1 := List.nodup_iff_count_le_one.1 hnd s
  have hc := hperm.count_eq s
  rw [List.count_append, List.count_append] at hc
  have hp : 1 ≤ pend.count s := List.count_pos_iff.2 hs
  omega

theorem perm_start_shuffle {pend processed failed regnames : List Name} {s : Name}
    (hperm : (pend ++ processed ++ failed).Perm regnames) (hnd : regnames.Nodup)
    (hs : s ∈ pend) :
    ((pend.filter (fun n => n != s)) ++ (processed ++ [s]) ++ failed).Perm regnames := by
  rcases count_one_of_mem_perm hperm hnd hs with ⟨h1, _, _⟩
  have hbase : ((pend.filter (fun n => n != s)) ++ [s]).Perm pend :=
    filter_ne_append_self_perm pend s h1
  have inner : ((pend.filter (fun n => n != s)) ++ (processed ++ [s])).Perm
      (pend ++ processed) := by
    refine List.Perm.trans (List.Perm.append_left _ List.perm_append_comm) ?_
    rw [← List.append_assoc]
    exact hbase.append_right processed
  exact (inner.append_right failed).trans hperm

theorem perm_fail_shuffle {pend processed failed regnames : List Name} {s : Name}
    (hperm : (pend ++ processed ++ failed).Perm regnames) (hnd : regnames.Nodup)
    (hs : s ∈ pend) :
    ((pend.filter (fun n => n != s)) ++ processed ++ (failed ++ [s])).Perm regnames := by
  rcases count_one_of_mem_perm hperm hnd hs with ⟨h1, _, _⟩
  have hbase : ((pend.filter (fun n => n != s)) ++ [s]).Perm pend :=
    filter_ne_append_self_perm pend s h1
  have inner2 : (((pend.filter (fun n => n != s)) ++ processed) ++ [s]).Perm
      (pend ++ processed) := by
    rw [List.append_assoc]
    refine List.Perm.trans (List.Perm.append_left _ List.perm_append_comm) ?_
    rw [← List.append_assoc]
    exact hbase.append_right processed
  refine List.Perm.trans (List.Perm.append_left _ List.perm_append_comm) ?_
  rw [← List.append_assoc]
  exact (inner2.append_right failed).trans hperm



theorem process_started_service (a : Agent) (s : Name) :
    (a.process_service_started s).service = a.service := by
  unfold Agent.process_service_started
  split <;> rfl

theorem process_stopped_service (a : Agent) (s : Name) :
    (a.process_service_stopped s).service = a.service := by
  unfold Agent.process_service_stopped
  split <;> rfl

theorem contains_iff_mem_names {l : List Name} {s : Name} :
    l.contains s = true ↔ s ∈ l := by
  simp [List.contains]

theorem service_started_perm {reg : List AgentService} {st st' : RCState} {s : Name}
    (hnd : (reg.map (fun x => x.name)).Nodup)
    (hp : partitionPerm reg st) (h : service_started s st = Except.ok st') :
    partitionPerm reg st' := by
  unfold service_started at h
  by_cases hc : st.pendingNames.contains s = true
  · rw [if_pos hc] at h
    cases h
    have hsmem : s ∈ st.pendingNames := contains_iff_mem_names.1 hc
    unfold partitionPerm
    have hnames : (((st.popAgent s).map (fun a => a.process_service_started s)).map
        (fun a => a.service.name)) = st.pendingNames.filter (fun n => n != s) := by
      rw [List.map_map]
      have : ((fun a : Agent => a.service.name) ∘ (fun a => a.process_service_started s))
          = fun a : Agent => a.service.name := by
        funext a
        simp [Function.comp, process_started_service]
      rw [this, pendingNames_pop]
    show ((((st.popAgent s).map (fun a => a.process_service_started s)).map
        (fun a => a.service.name)) ++ (st.processed_services ++ [s])
        ++ st.failed_services).Perm (reg.map (fun x => x.name))
    rw [hnames]
    exact perm_start_shuffle hp hnd hsmem
  · rw [if_neg hc] at h
    cases h

theorem service_stopped_perm {reg : List AgentService} {st st' : RCState} {s : Name}
    (hnd : (reg.map (fun x => x.name)).Nodup)
    (hp : partitionPerm reg st) (h : service_stopped s st = Except.ok st') :
    partitionPerm reg st' := by
  unfold service_stopped at h
  by_cases hc : st.pendingNames.contains s = true
  · rw [if_pos hc] at h
    cases h
    have hsmem : s ∈ st.pendingNames := contains_iff_mem_names.1 hc
    unfold partitionPerm
    have hnames : (((st.popAgent s).map (fun a => a.process_service_stopped s)).map
        (fun a => a.service.name)) = st.pendingNames.filter (fun n => n != s) := by
      rw [List.map_map]
      have : ((fun a : Agent => a.service.name) ∘ (fun a => a.process_service_stopped s))
          = fun a : Agent => a.service.name := by
        funext a
        simp [Function.comp, process_stopped_service]
      rw [this, pendingNames_pop]
    show ((((st.popAgent s).map (fun a => a.process_service_stopped s)).map
        (fun a => a.service.name)) ++ (st.processed_services ++ [s])
        ++ st.failed_services).Perm (reg.map (fun x => x.name))
    rw [hnames]
    exact perm_start_shuffle hp hnd hsmem
  · rw [if_neg hc] at h
    cases h

theorem foldlM_except_preserve {α β ε : Type} (P : β → Prop) (f : β → α → Except ε β)
    (hf : ∀ b a b', P b → f b a = Except.ok b' → P b') :
    ∀ (l : List α) (b b' : β), P b → l.foldlM f b = Except.ok b' → P b' := by
  intro l
  induction l with
  | nil =>
    intro b b' hPb h
    simp only [List.foldlM, Pure.pure, Except.pure] at h
    cases h
    exact hPb
  | cons a rest ih =>
    intro b b' hPb h
    rw [List.foldlM_cons] at h
    cases hfa : f b a with
    | error e =>
      rw [hfa] at h
      simp [Bind.bind, Except.bind] at h
    | ok b1 =>
      rw [hfa] at h
      simp only [Bind.bind, Except.bind] at h
      exact ih b1 b' (hf b a b1 hPb hfa) h

theorem service_failed_fuel_perm {reg : List AgentService}
    (hnd : (reg.map (fun x => x.name)).Nodup) :
    ∀ (fuel : Nat) (s : Name) (st st' : RCState),
      partitionPerm reg st → service_failed_fuel fuel s st = Except.ok st' →
      partitionPerm reg st' := by
  intro fuel
  induction fuel with
  | zero =>
    intro s st st' _ h
    simp [service_failed_fuel] at h
  | succ fuel ih =>
    intro s st st' hp h
    simp only [service_failed_fuel] at h
    by_cases hc : st.pendingNames.contains s = true
    · rw [if_pos hc] at h
      have hsmem : s ∈ st.pendingNames := contains_iff_mem_names.1 hc
      have hp1 : partitionPerm reg
          { agent_set := st.popAgent s
            processed_services := st.processed_services
            failed_services := st.failed_services ++ [s] } := by
        unfold partitionPerm
        show (((st.popAgent s).map (fun a => a.service.name)) ++ st.processed_services
            ++ (st.failed_services ++ [s])).Perm (reg.map (fun x => x.name))
        rw [pendingNames_pop]
        exact perm_fail_shuffle hp hnd hsmem
      refine foldlM_except_preserve (partitionPerm reg) _ ?_ _ _ _ hp1 h
      intro b a b' hPb hfa
      by_cases hd : s ∈ a.dependencies
      · rw [if_pos hd] at hfa
        exact ih a.name b b' hPb hfa
      · rw [if_neg hd] at hfa
        cases hfa
        exact hPb
    · rw [if_neg hc] at h
      cases h



theorem partition_exactly_one {reg : List AgentService} {st : RCState}
    (hnd : (reg.map (fun x => x.name)).Nodup) (hp : partitionPerm reg st) :
    ∀ n ∈ reg.map (fun x => x.name),
      (n ∈ st.pendingNames ∧ n ∉ st.processed_services ∧ n ∉ st.failed_services) ∨
      (n ∉ st.pendingNames ∧ n ∈ st.processed_services ∧ n ∉ st.failed_services) ∨
      (n ∉ st.pendingNames ∧ n ∉ st.processed_services ∧ n ∈ st.failed_services) := by
  intro n hn
  have h1 : (reg.map (fun x => x.name)).count n = 1 := List.count_eq_one_of_mem hnd hn
  have hc := hp.count_eq n
  rw [List.count_append, List.count_append, h1] at hc
  by_cases b1 : n ∈ st.pendingNames <;> by_cases b2 : n ∈ st.processed_services <;>
    by_cases b3 : n ∈ st.failed_services
  · have := List.count_pos_iff.2 b1
    have := List.count_pos_iff.2 b2
    omega
  · have := List.count_pos_iff.2 b1
    have := List.count_pos_iff.2 b2
    omega
  · have := List.count_pos_iff.2 b1
    have := List.count_pos_iff.2 b3
    omega
  · exact Or.inl ⟨b1, b2, b3⟩
  · have := List.count_pos_iff.2 b2
    have := List.count_pos_iff.2 b3
    omega
  · exact Or.inr (Or.inl ⟨b1, b2, b3⟩)
  · exact Or.inr (Or.inr ⟨b1, b2, b3⟩)
  · have := List.count_eq_zero_of_not_mem b1
    have := List.count_eq_zero_of_not_mem b2
    have := List.count_eq_zero_of_not_mem b3
    omega

/-- C10.  Partition invariant of the running context: on construction every
registry service is pending and the processed and failed lists are empty;
`service_started`, `service_stopped` and `service_failed`, whenever they
complete normally (they were invoked on a pending service and no double pop
occurred), preserve the property that the pending, processed and failed names
together are a permutation of the registry names — so, the registry names
being unique, every service lies in exactly one of the three sets — and
`done` holds exactly when the pending agent set is empty. -/
theorem c10_partition_invariant :
    (∀ services : List AgentService,
      (RunningContext.init services).pendingNames = services.map (fun x => x.name) ∧
      partitionPerm services (RunningContext.init services) ∧
      (RunningContext.init services).processed_services = [] ∧
      (RunningContext.init services).failed_services = []) ∧
    (∀ (services : List AgentService) (st st' : RCState) (s : Name),
      (services.map (fun x => x.name)).Nodup → partitionPerm services st →
      service_started s st = Except.ok st' → partitionPerm services st') ∧
    (∀ (services : List AgentService) (st st' : RCState) (s : Name),
      (services.map (fun x => x.name)).Nodup → partitionPerm services st →
      service_stopped s st = Except.ok st' → partitionPerm services st') ∧
    (∀ (services : List AgentService) (st st' : RCState) (s : Name),
      (services.map (fun x => x.name)).Nodup → partitionPerm services st →
      service_failed s st = Except.ok st' → partitionPerm services st') ∧
    (∀ (services : List AgentService) (st : RCState),
      (services.map (fun x => x.name)).Nodup → partitionPerm services st →
      ∀ n ∈ services.map (fun x => x.name),
        (n ∈ st.pendingNames ∧ n ∉ st.processed_services ∧ n ∉ st.failed_services) ∨
        (n ∉ st.pendingNames ∧ n ∈ st.processed_services ∧ n ∉ st.failed_services) ∨
        (n ∉ st.pendingNames ∧ n ∉ st.processed_services ∧ n ∈ st.failed_services)) ∧
    (∀ st : RCState, st.done = true ↔ st.agent_set = []) := by
  refine ⟨?_, ?_, ?_, ?_, ?_, ?_⟩
  · intro services
    have hnames : (RunningContext.init services).pendingNames
        = services.map (fun x => x.name) := by
      simp [RunningContext.init, RCState.pendingNames, List.map_map, mkAgent,
        Function.comp]
    refine ⟨hnames, ?_, rfl, rfl⟩
    unfold partitionPerm
    rw [hnames]
    simp [RunningContext.init]
  · intro services st st' s hnd hp h
    exact service_started_perm hnd hp h
  · intro services st st' s hnd hp h
    exact service_stopped_perm hnd hp h
  · intro services st st' s hnd hp h
    exact service_failed_fuel_perm hnd _ s st st' hp h
  · intro services st hnd hp
    exact partition_exactly_one hnd hp
  · intro st
    simp [RCState.done]


/-- Witness for C10: on the two-service registry, the initial partition holds
and is preserved by `service_started("a")`. -/
theorem c10_partition_invariant_witness :
    (c10Svcs.map (fun x => x.name)).Nodup ∧
    partitionPerm c10Svcs (RunningContext.init c10Svcs) ∧
    service_started "a" (RunningContext.init c10Svcs) = Except.ok c10St1 ∧
    partitionPerm c10Svcs c10St1 :=
  ⟨by decide, by unfold partitionPerm; decide, rfl,
    c10_partition_invariant.2.1 c10Svcs (RunningContext.init c10Svcs) c10St1 "a"
      (by decide) (by unfold partitionPerm; decide) rfl⟩

/-! ## C1: start order -/


theorem appearsBefore_append {l l2 : List Name} {b a : Name}
    (h : appearsBefore l b a) : appearsBefore (l ++ l2) b a := by
  rcases h with ⟨l1, l1', rfl, hb, ha⟩
  exact ⟨l1, l1' ++ l2, by simp, hb, by simp [ha]⟩

theorem count_one_of_mem_perm2 {pend processed regnames : List Name} {s : Name}
    (hperm : (pend ++ processed).Perm regnames) (hnd : regnames.Nodup)
    (hs : s ∈ pend) : pend.count s = 1 := by
  have hle : regnames.count s ≤ 1 := List.nodup_iff_count_le_one.1 hnd s
  have hc := hperm.count_eq s
  rw [List.count_append] at hc
  have hp : 1 ≤ pend.count s := List.count_pos_iff.2 hs
  omega

theorem perm_start_shuffle2 {pend processed regnames : List Name} {s : Name}
    (hperm : (pend ++ processed).Perm regnames) (hnd : regnames.Nodup)
    (hs : s ∈ pend) :
    ((pend.filter (fun n => n != s)) ++ (processed ++ [s])).Perm regnames := by
  have h1 : pend.count s = 1 := count_one_of_mem_perm2 hperm hnd hs
  have hbase : ((pend.filter (fun n => n != s)) ++ [s]).Perm pend :=
    filter_ne_append_self_perm pend s h1
  have inner : ((pend.filter (fun n => n != s)) ++ (processed ++ [s])).Perm
      (pend ++ processed) := by
    refine List.Perm.trans (List.Perm.append_left _ List.perm_append_comm) ?_
    rw [← List.append_assoc]
    exact hbase.append_right processed
  exact inner.trans hperm

theorem start_step_inv {services : List AgentService} {st : RCState}
    (hnd : (services.map (fun x => x.name)).Nodup)
    (hinv : startInv services st) (s : Name) :
    startInv services (start_step st s) := by
  unfold start_step
  cases hfind : st.agent_set.find? (fun a => a.service.name == s) with
  | none => exact hinv
  | some a =>
    show startInv services
      (if a.can_start = true then
        match service_started s st with
        | Except.ok st' => st'
        | Except.error _ => st
      else st)
    by_cases hcs : a.can_start = true
    · rw [if_pos hcs]
      have hamem : a ∈ st.agent_set := List.mem_of_find?_eq_some hfind
      have hname : a.service.name = s := by simpa using List.find?_some hfind
      have hsmem : s ∈ st.pendingNames :=
        hname ▸ List.mem_map_of_mem (fun x => x.service.name) hamem
      have hcont : st.pendingNames.contains s = true := contains_iff_mem_names.2 hsmem
      have hss : service_started s st = Except.ok
          { agent_set := (st.popAgent s).map (fun x => x.process_service_started s)
            processed_services := st.processed_services ++ [s]
            failed_services := st.failed_services } := by
        unfold service_started
        rw [if_pos hcont]
      rw [hss]
      have hod : a.open_dependencies = [] := by
        unfold Agent.can_start at hcs
        rw [Bool.and_eq_true] at hcs
        exact eq_of_beq hcs.1
      obtain ⟨hinv1, hinv2, hinv3⟩ := hinv
      refine ⟨?_, ?_, ?_⟩
      · intro a' ha'
        rcases List.mem_map.1 ha' with ⟨a0, ha0, rfl⟩
        have ha0m : a0 ∈ st.agent_set := List.mem_of_mem_filter ha0
        obtain ⟨ha0s, ha0d⟩ := hinv1 a0 ha0m
        refine ⟨by rw [process_started_service]; exact ha0s, ?_⟩
        intro b hb hnotin
        rw [process_started_service] at hb
        unfold Agent.process_service_started at hnotin
        by_cases hsod : s ∈ a0.open_dependencies
        · rw [if_pos hsod] at hnotin
          by_cases hbs : b = s
          · simp [hbs]
          · have : b ∉ a0.open_dependencies := by
              intro hmem
              exact hnotin ((List.mem_erase_of_ne hbs).2 hmem)
            have := ha0d b hb this
            simp [this]
        · rw [if_neg hsod] at hnotin
          have := ha0d b hb hnotin
          simp [this]
      · intro s' hs' hname'
        rcases List.mem_append.1 hname' with hold | hnew
        · intro b hb
          exact appearsBefore_append (hinv2 s' hs' hold b hb)
        · have hseq : s'.name = s := by simpa using hnew
          have has : a.service ∈ services := (hinv1 a hamem).1
          have hs'a : s' = a.service :=
            List.inj_on_of_nodup_map hnd hs' has (by rw [hseq, hname])
          intro b hb
          have hbdep : b ∈ a.service.dependencies := by rw [← hs'a]; exact hb
          have hbproc : b ∈ st.processed_services :=
            (hinv1 a hamem).2 b hbdep (by simp [hod])
          exact ⟨st.processed_services, [s], rfl, hbproc, by simp [hseq]⟩
      · have hnames : (((st.popAgent s).map (fun x => x.process_service_started s)).map
            (fun x => x.service.name)) = st.pendingNames.filter (fun n => n != s) := by
          rw [List.map_map]
          have heq : ((fun x : Agent => x.service.name)
              ∘ (fun x => x.process_service_started s)) = fun x : Agent => x.service.name := by
            funext x
            simp [Function.comp, process_started_service]
          rw [heq, pendingNames_pop]
        show ((((st.popAgent s).map (fun x => x.process_service_started s)).map
            (fun x => x.service.name)) ++ (st.processed_services ++ [s])).Perm
            (services.map (fun x => x.name))
        rw [hnames]
        exact perm_start_shuffle2 hinv3 hnd hsmem
    · rw [if_neg hcs]
      exact hinv

theorem start_all_run_inv {services : List AgentService}
    (hnd : (services.map (fun x => x.name)).Nodup) :
    ∀ (sched : List Name) (st : RCState), startInv services st →
      startInv services (start_all_run st sched) := by
  intro sched
  induction sched with
  | nil => intro st h; exact h
  | cons s rest ih =>
    intro st h
    exact ih (start_step st s) (start_step_inv hnd h s)

theorem startInv_init (services : List AgentService) :
    startInv services (RunningContext.init services) := by
  refine ⟨?_, ?_, ?_⟩
  · intro a ha
    rcases List.mem_map.1 ha with ⟨s0, hs0, rfl⟩
    exact ⟨hs0, fun b hb hnotin => absurd hb hnotin⟩
  · intro s _ hmem
    simp [RunningContext.init] at hmem
  · have hn : (RunningContext.init services).pendingNames
        = services.map (fun x => x.name) := by
      simp [RunningContext.init, RCState.pendingNames, List.map_map, mkAgent,
        Function.comp]
    show ((RunningContext.init services).pendingNames
        ++ (RunningContext.init services).processed_services).Perm
      (services.map (fun x => x.name))
    rw [hn]
    simp [RunningContext.init]

/-- C1.  Start order: for any schedule whose `start_all` run over a valid
registry finishes with the pending agent set empty (a successful start), for
every dependency edge A → B the dependency B appears in `processed_services`
strictly before A.  The scheduler only spawns agents with `can_start` —
`open_dependencies` empty and status NULL — and an open dependency is removed
only by `service_started` of that dependency, as in the source. -/
theorem c1_start_order (services : List AgentService) (sched : List Name)
    (hnd : (services.map (fun x => x.name)).Nodup)
    (hdone : (start_all_run (RunningContext.init services) sched).agent_set = []) :
    ∀ A ∈ services, ∀ B ∈ A.dependencies,
      appearsBefore
        (start_all_run (RunningContext.init services) sched).processed_services
        B A.name := by
  have hfin := start_all_run_inv hnd sched (RunningContext.init services)
    (startInv_init services)
  intro A hA B hB
  have hperm := hfin.2.2
  have hpn : (start_all_run (RunningContext.init services) sched).pendingNames = [] := by
    simp [RCState.pendingNames, hdone]
  rw [hpn, List.nil_append] at hperm
  have hAmem : A.name ∈
      (start_all_run (RunningContext.init services) sched).processed_services :=
    hperm.mem_iff.2 (List.mem_map_of_mem (fun x => x.name) hA)
  exact hfin.2.1 A hA hAmem B hB


/-- Witness for C1 on the two-service registry with schedule
`[b, a, b]` (the first attempt at `b` is not ready and is skipped). -/
theorem c1_start_order_witness :
    (c1Svcs.map (fun x => x.name)).Nodup ∧
    (start_all_run (RunningContext.init c1Svcs) ["b", "a", "b"]).agent_set = [] ∧
    appearsBefore
      (start_all_run (RunningContext.init c1Svcs) ["b", "a", "b"]).processed_services
      "a" "b" :=
  ⟨by decide, by decide,
    c1_start_order c1Svcs ["b", "a", "b"] (by decide) (by decide)
      { name := "b", dependencies := ["a"], dependants := [] } (by decide)
      "a" (by decide)⟩

/-! ## C6: reload closure -/


theorem nodup_length_le {l b : List Name} (hnd : l.Nodup) (hsub : l ⊆ b) :
    l.length ≤ b.length := by
  classical
  have h1 : l.toFinset.card = l.length := List.toFinset_card_of_nodup hnd
  have h2 : l.toFinset ⊆ b.toFinset := by
    intro x hx
    simp only [List.mem_toFinset] at *
    exact hsub hx
  have h3 : b.toFinset.card ≤ b.length := b.toFinset_card_le
  have := Finset.card_le_card h2
  omega

theorem ufbs_fold_mono (R : List Name) :
    ∀ (ds q : List Name),
      q ⊆ ds.foldl (fun q d => if !q.contains d && !R.contains d then q ++ [d] else q) q := by
  intro ds
  induction ds with
  | nil => intro q; simp
  | cons d rest ih =>
    intro q
    simp only [List.foldl_cons]
    refine List.Subset.trans ?_ (ih _)
    by_cases hg : (!q.contains d && !R.contains d) = true
    · rw [if_pos hg]; exact List.subset_append_left q [d]
    · rw [if_neg hg]
      exact fun x hx => hx

theorem ufbs_fold_mem (R : List Name) :
    ∀ (ds q : List Name) (x : Name),
      x ∈ ds.foldl (fun q d => if !q.contains d && !R.contains d then q ++ [d] else q) q →
      x ∈ q ∨ x ∈ ds := by
  intro ds
  induction ds with
  | nil => intro q x hx; exact Or.inl (by simpa using hx)
  | cons d rest ih =>
    intro q x hx
    simp only [List.foldl_cons] at hx
    rcases ih _ x hx with hx' | hx'
    · by_cases hg : (!q.contains d && !R.contains d) = true
      · rw [if_pos hg] at hx'
        rcases List.mem_append.1 hx' with h | h
        · exact Or.inl h
        · exact Or.inr (by simpa using Or.inl (by simpa using h))
      · rw [if_neg hg] at hx'
        exact Or.inl hx'
    · exact Or.inr (by simp [hx'])

theorem ufbs_fold_covers (R : List Name) :
    ∀ (ds q : List Name), ∀ d ∈ ds,
      d ∈ ds.foldl (fun q d => if !q.contains d && !R.contains d then q ++ [d] else q) q ∨
      d ∈ R := by
  intro ds
  induction ds with
  | nil => intro q d hd; cases hd
  | cons d0 rest ih =>
    intro q d hd
    simp only [List.foldl_cons]
    rcases List.mem_cons.1 hd with rfl | hd'
    · by_cases hg : (!q.contains d && !R.contains d) = true
      · rw [if_pos hg]
        exact Or.inl (ufbs_fold_mono R rest _ (by simp))
      · rw [if_neg hg]
        rw [Bool.and_eq_true, Bool.not_eq_true', Bool.not_eq_true'] at hg
        by_cases hq : q.contains d = true
        · exact Or.inl (ufbs_fold_mono R rest q (contains_iff_mem_names.1 hq))
        · have hqf : q.contains d = false := by simpa using hq
          by_cases hr : R.contains d = true
          · exact Or.inr (contains_iff_mem_names.1 hr)
          · have hrf : R.contains d = false := by simpa using hr
            exact absurd ⟨hqf, hrf⟩ hg
    · exact ih _ d hd'

theorem ufbs_fold_nodup (R : List Name) :
    ∀ (ds q : List Name), (q ++ R).Nodup →
      ((ds.foldl (fun q d => if !q.contains d && !R.contains d then q ++ [d] else q) q)
        ++ R).Nodup := by
  intro ds
  induction ds with
  | nil => intro q h; simpa using h
  | cons d rest ih =>
    intro q h
    simp only [List.foldl_cons]
    by_cases hg : (!q.contains d && !R.contains d) = true
    · rw [if_pos hg]
      refine ih _ ?_
      rw [Bool.and_eq_true, Bool.not_eq_true', Bool.not_eq_true'] at hg
      have hdq : d ∉ q := fun hm => by
        have := contains_iff_mem_names.2 hm
        rw [hg.1] at this
        cases this
      have hdR : d ∉ R := fun hm => by
        have := contains_iff_mem_names.2 hm
        rw [hg.2] at this
        cases this
      have hperm : ((q ++ [d]) ++ R).Perm (d :: (q ++ R)) := by
        refine List.Perm.trans (List.Perm.append_right R (List.perm_append_singleton d q)) ?_
        simp
      refine hperm.nodup_iff.2 ?_
      exact List.nodup_cons.2 ⟨by simp [hdq, hdR], h⟩
    · rw [if_neg hg]
      exact ih _ h



theorem ufbs_loop_spec (dependants : Name → List Name) (bound : List Name) (X : Name)
    (hdep : ∀ n, dependants n ⊆ bound) :
    ∀ (fuel : Nat) (queue required : List Name),
      bound.length + 1 ≤ fuel + required.length →
      (queue ++ required) ⊆ bound →
      (queue ++ required).Nodup →
      (∀ n ∈ queue ++ required, Relation.ReflTransGen (fun a b => b ∈ dependants a) X n) →
      (∀ r ∈ required, ∀ d ∈ dependants r, d ∈ queue ∨ d ∈ required) →
      ((queue ++ required) ⊆ ufbs_loop dependants fuel queue required ∧
       (∀ r ∈ ufbs_loop dependants fuel queue required, ∀ d ∈ dependants r,
          d ∈ ufbs_loop dependants fuel queue required) ∧
       (∀ n ∈ ufbs_loop dependants fuel queue required,
          Relation.ReflTransGen (fun a b => b ∈ dependants a) X n)) := by
  intro fuel
  induction fuel with
  | zero =>
    intro queue required hfuel hsub hnd _ _
    have h1 : required.Nodup := (List.nodup_append.1 hnd).2.1
    have h2 : required ⊆ bound := fun x hx => hsub (List.mem_append_right queue hx)
    have := nodup_length_le h1 h2
    omega
  | succ fuel ih =>
    intro queue required hfuel hsub hnd hreach hclosed
    cases queue with
    | nil =>
      refine ⟨?_, ?_, ?_⟩
      · show [] ++ required ⊆ ufbs_loop dependants (fuel + 1) [] required
        simp only [ufbs_loop, List.nil_append]
        exact fun x hx => hx
      · intro r hr d hd
        simp only [ufbs_loop] at hr ⊢
        rcases hclosed r hr d hd with h | h
        · cases h
        · exact h
      · intro n hn
        simp only [ufbs_loop] at hn
        exact hreach n (List.mem_append_right [] hn)
    | cons s rest =>
      have hstep : ufbs_loop dependants (fuel + 1) (s :: rest) required
          = ufbs_loop dependants fuel
            ((dependants s).foldl
              (fun q d => if !q.contains d && !(required ++ [s]).contains d
                then q ++ [d] else q) rest)
            (required ++ [s]) := rfl
      set R' := required ++ [s] with hR'
      set queue' := (dependants s).foldl
        (fun q d => if !q.contains d && !R'.contains d then q ++ [d] else q) rest
        with hq'
      have hsmem : s ∈ s :: rest := by simp
      have hperm0 : ((s :: rest) ++ required).Perm (rest ++ R') := by
        rw [hR', ← List.append_assoc, List.cons_append]
        exact (List.perm_append_singleton s (rest ++ required)).symm
      have hnd0 : (rest ++ R').Nodup := hperm0.nodup_iff.1 hnd
      have hnd' : (queue' ++ R').Nodup := ufbs_fold_nodup R' (dependants s) rest hnd0
      have hq'mem : ∀ x ∈ queue', x ∈ rest ∨ x ∈ dependants s := fun x hx =>
        ufbs_fold_mem R' (dependants s) rest x hx
      have hrestq : rest ⊆ queue' := ufbs_fold_mono R' (dependants s) rest
      have hsub' : (queue' ++ R') ⊆ bound := by
        intro x hx
        rcases List.mem_append.1 hx with hx | hx
        · rcases hq'mem x hx with h | h
          · exact hsub (by simp [h])
          · exact hdep s h
        · rw [hR'] at hx
          rcases List.mem_append.1 hx with h | h
          · exact hsub (by simp [h])
          · have : x = s := by simpa using h
            exact hsub (by simp [this])
      have hreach' : ∀ n ∈ queue' ++ R',
          Relation.ReflTransGen (fun a b => b ∈ dependants a) X n := by
        intro n hn
        rcases List.mem_append.1 hn with hn | hn
        · rcases hq'mem n hn with h | h
          · exact hreach n (by simp [h])
          · exact Relation.ReflTransGen.tail (hreach s (by simp)) h
        · rw [hR'] at hn
          rcases List.mem_append.1 hn with h | h
          · exact hreach n (by simp [h])
          · have : n = s := by simpa using h
            exact this ▸ hreach s (by simp)
      have hclosed' : ∀ r ∈ R', ∀ d ∈ dependants r, d ∈ queue' ∨ d ∈ R' := by
        intro r hr d hd
        rw [hR'] at hr
        rcases List.mem_append.1 hr with hr | hr
        · rcases hclosed r hr d hd with h | h
          · rcases List.mem_cons.1 h with rfl | h
            · exact Or.inr (by simp [hR'])
            · exact Or.inl (hrestq h)
          · exact Or.inr (by simp [hR', h])
        · have : r = s := by simpa using hr
          subst this
          exact ufbs_fold_covers R' (dependants r) rest d hd
      have hfuel' : bound.length + 1 ≤ fuel + R'.length := by
        rw [hR']
        simp only [List.length_append, List.length_cons, List.length_nil]
        omega
      obtain ⟨hA, hB, hC⟩ := ih queue' R' hfuel' hsub' hnd' hreach' hclosed'
      rw [hstep]
      refine ⟨?_, hB, hC⟩
      intro x hx
      rcases List.mem_append.1 hx with hx | hx
      · rcases List.mem_cons.1 hx with rfl | hx
        · exact hA (by simp [hR'])
        · exact hA (by simp [hrestq hx])
      · exact hA (by simp [hR', hx])



theorem connect_names {defs : List SDef} {regs : List RService}
    (h : connect_services defs = Except.ok regs) :
    regs.map (fun r => r.name) = defs.map (fun s => s.name) := by
  rw [connect_services_ok_eq h, List.map_map]
  rfl

theorem connect_deps_subset {defs : List SDef} {regs : List RService}
    (h : connect_services defs = Except.ok regs) :
    ∀ r ∈ regs, r.dependencies ⊆ regs.map (fun x => x.name) := by
  have hany : (defs.any (fun s => s.dependencies.any
      (fun d => !(defs.map (fun s => s.name)).contains d))) = false := by
    unfold connect_services at h
    split at h
    · cases h
    · split at h
      · cases h
      · rename_i hcond
        simpa using hcond
  intro r hr
  rw [connect_services_ok_eq h] at hr
  rcases List.mem_map.1 hr with ⟨d, hd, rfl⟩
  intro x hx
  rw [connect_names h]
  rw [List.any_eq_false] at hany
  have h1 := hany d hd
  have h2 : (d.dependencies.any
      (fun dd => !(defs.map (fun s => s.name)).contains dd)) = false := by
    simpa using h1
  rw [List.any_eq_false] at h2
  have h3 := h2 x hx
  have h4 : (defs.map (fun s => s.name)).contains x = true := by
    simpa using h3
  exact contains_iff_mem_names.1 h4

theorem find_reg_self {reg : List RService}
    (hnd : (reg.map (fun r => r.name)).Nodup) {r : RService} (hr : r ∈ reg) :
    reg.find? (fun x => x.name == r.name) = some r := by
  induction reg with
  | nil => cases hr
  | cons x xs ih =>
    have hnd' : (xs.map (fun r => r.name)).Nodup := by
      simpa using (List.nodup_cons.1 (by simpa using hnd)).2
    rcases List.mem_cons.1 hr with rfl | hr'
    · simp [List.find?_cons]
    · have hxname : x.name ∉ xs.map (fun r => r.name) :=
        (List.nodup_cons.1 (by simpa using hnd)).1
      have hne : (x.name == r.name) = false := by
        have : x.name ≠ r.name := by
          intro he
          exact hxname (he ▸ List.mem_map_of_mem (fun r => r.name) hr')
        simpa using this
      rw [List.find?_cons, hne]
      exact ih hnd' hr'

theorem depsOf_mk {defs : List SDef} {regs : List RService}
    (h : connect_services defs = Except.ok regs) {d : SDef} (hd : d ∈ defs) :
    depsOf regs d.name = d.dependencies := by
  have hnd : (regs.map (fun r => r.name)).Nodup := by
    rw [connect_names h]
    exact connect_services_ok_nodup h
  have hmem : (⟨d.name, d.dependencies,
      (defs.filter (fun x => d.name ∈ x.dependencies)).map
        (fun x => x.name)⟩ : RService) ∈ regs := by
    rw [connect_services_ok_eq h]
    exact List.mem_map_of_mem _ hd
  unfold depsOf
  rw [find_reg_self hnd hmem]

theorem dependantsOf_mk {defs : List SDef} {regs : List RService}
    (h : connect_services defs = Except.ok regs) {d : SDef} (hd : d ∈ defs) :
    dependantsOf regs d.name
      = (defs.filter (fun x => d.name ∈ x.dependencies)).map (fun x => x.name) := by
  have hnd : (regs.map (fun r => r.name)).Nodup := by
    rw [connect_names h]
    exact connect_services_ok_nodup h
  have hmem : (⟨d.name, d.dependencies,
      (defs.filter (fun x => d.name ∈ x.dependencies)).map
        (fun x => x.name)⟩ : RService) ∈ regs := by
    rw [connect_services_ok_eq h]
    exact List.mem_map_of_mem _ hd
  unfold dependantsOf
  rw [find_reg_self hnd hmem]

theorem lookup_none_of_not_mem {reg : List RService} {n : Name}
    (hn : n ∉ reg.map (fun r => r.name)) :
    reg.find? (fun x => x.name == n) = none := by
  rw [List.find?_eq_none]
  intro x hx
  intro hbe
  exact hn (by
    have : x.name = n := by simpa using hbe
    exact this ▸ List.mem_map_of_mem (fun r => r.name) hx)

theorem dependants_iff_deps {defs : List SDef} {regs : List RService}
    (h : connect_services defs = Except.ok regs) :
    ∀ a b, b ∈ dependantsOf regs a ↔ a ∈ depsOf regs b := by
  intro a b
  by_cases hmema : a ∈ defs.map (fun s => s.name)
  · rcases List.mem_map.1 hmema with ⟨da, hda, rfl⟩
    rw [dependantsOf_mk h hda]
    constructor
    · intro hb
      rcases List.mem_map.1 hb with ⟨x, hxf, rfl⟩
      have hx := List.mem_filter.1 hxf
      rw [depsOf_mk h hx.1]
      simpa using hx.2
    · intro hdep
      by_cases hmemb : b ∈ defs.map (fun s => s.name)
      · rcases List.mem_map.1 hmemb with ⟨db, hdb, rfl⟩
        rw [depsOf_mk h hdb] at hdep
        exact List.mem_map_of_mem _ (List.mem_filter.2 ⟨hdb, by simpa using hdep⟩)
      · have : depsOf regs b = [] := by
          unfold depsOf
          rw [lookup_none_of_not_mem (by rwa [connect_names h])]
        rw [this] at hdep
        cases hdep
  · have hnone : dependantsOf regs a = [] := by
      unfold dependantsOf
      rw [lookup_none_of_not_mem (by rwa [connect_names h])]
    rw [hnone]
    constructor
    · intro hb; cases hb
    · intro hdep
      exfalso
      by_cases hmemb : b ∈ defs.map (fun s => s.name)
      · rcases List.mem_map.1 hmemb with ⟨db, hdb, rfl⟩
        rw [depsOf_mk h hdb] at hdep
        have hsub := connect_deps_subset h
        have hmem : (⟨db.name, db.dependencies,
            (defs.filter (fun x => db.name ∈ x.dependencies)).map
              (fun x => x.name)⟩ : RService) ∈ regs := by
          rw [connect_services_ok_eq h]
          exact List.mem_map_of_mem _ hdb
        have := hsub _ hmem hdep
        rw [connect_names h] at this
        exact hmema this
      · have : depsOf regs b = [] := by
          unfold depsOf
          rw [lookup_none_of_not_mem (by rwa [connect_names h])]
        rw [this] at hdep
        cases hdep

theorem dependantsOf_subset {defs : List SDef} {regs : List RService}
    (h : connect_services defs = Except.ok regs) :
    ∀ n, dependantsOf regs n ⊆ regs.map (fun r => r.name) := by
  intro n x hx
  by_cases hmem : n ∈ defs.map (fun s => s.name)
  · rcases List.mem_map.1 hmem with ⟨d, hd, rfl⟩
    rw [dependantsOf_mk h hd] at hx
    rcases List.mem_map.1 hx with ⟨y, hyf, rfl⟩
    rw [connect_names h]
    exact List.mem_map_of_mem _ (List.mem_filter.1 hyf).1
  · have : dependantsOf regs n = [] := by
      unfold dependantsOf
      rw [lookup_none_of_not_mem (by rwa [connect_names h])]
    rw [this] at hx
    cases hx



theorem stop_step_subset (st : RCState) (s : Name) :
    (∀ n ∈ (stop_step st s).processed_services,
      n ∈ st.processed_services ∨ n ∈ st.pendingNames) ∧
    (∀ n ∈ (stop_step st s).pendingNames, n ∈ st.pendingNames) := by
  unfold stop_step
  cases hfind : st.agent_set.find? (fun a => a.service.name == s) with
  | none => exact ⟨fun n hn => Or.inl hn, fun n hn => hn⟩
  | some a =>
    show (∀ n ∈ (if a.can_stop = true then
          match service_stopped s st with
          | Except.ok st' => st'
          | Except.error _ => st
        else st).processed_services, n ∈ st.processed_services ∨ n ∈ st.pendingNames) ∧
      (∀ n ∈ (if a.can_stop = true then
          match service_stopped s st with
          | Except.ok st' => st'
          | Except.error _ => st
        else st).pendingNames, n ∈ st.pendingNames)
    by_cases hcs : a.can_stop = true
    · rw [if_pos hcs]
      have hamem : a ∈ st.agent_set := List.mem_of_find?_eq_some hfind
      have hname : a.service.name = s := by simpa using List.find?_some hfind
      have hsmem : s ∈ st.pendingNames :=
        hname ▸ List.mem_map_of_mem (fun x => x.service.name) hamem
      have hcont : st.pendingNames.contains s = true := contains_iff_mem_names.2 hsmem
      have hss : service_stopped s st = Except.ok
          { agent_set := (st.popAgent s).map (fun x => x.process_service_stopped s)
            processed_services := st.processed_services ++ [s]
            failed_services := st.failed_services } := by
        unfold service_stopped
        rw [if_pos hcont]
      rw [hss]
      constructor
      · intro n hn
        rcases List.mem_append.1 hn with h | h
        · exact Or.inl h
        · have : n = s := by simpa using h
          exact Or.inr (this ▸ hsmem)
      · intro n hn
        have hnames : (((st.popAgent s).map (fun x => x.process_service_stopped s)).map
            (fun x => x.service.name)) = st.pendingNames.filter (fun m => m != s) := by
          rw [List.map_map]
          have heq : ((fun x : Agent => x.service.name)
              ∘ (fun x => x.process_service_stopped s))
              = fun x : Agent => x.service.name := by
            funext x
            simp [Function.comp, process_stopped_service]
          rw [heq, pendingNames_pop]
        have hn' : n ∈ st.pendingNames.filter (fun m => m != s) := by
          rw [← hnames]
          exact hn
        exact List.mem_of_mem_filter hn'
    · rw [if_neg hcs]
      exact ⟨fun n hn => Or.inl hn, fun n hn => hn⟩

theorem stop_all_run_subset :
    ∀ (sched : List Name) (st : RCState),
      (∀ n ∈ (stop_all_run st sched).processed_services,
        n ∈ st.processed_services ∨ n ∈ st.pendingNames) ∧
      (∀ n ∈ (stop_all_run st sched).pendingNames, n ∈ st.pendingNames) := by
  intro sched
  induction sched with
  | nil => intro st; exact ⟨fun n hn => Or.inl hn, fun n hn => hn⟩
  | cons s rest ih =>
    intro st
    have hstep := stop_step_subset st s
    have hrest := ih (stop_step st s)
    constructor
    · intro n hn
      rcases hrest.1 n hn with h | h
      · rcases hstep.1 n h with h' | h'
        · exact Or.inl h'
        · exact Or.inr h'
      · exact Or.inr (hstep.2 n h)
    · intro n hn
      exact hstep.2 n (hrest.2 n hn)

/-- The scope-reduction half of the reload claim holds of the code: over a
registry produced by `connect_services`, if `update_for_base_service(X)`
succeeds then the names kept are exactly `X` together with every service
transitively depending on `X` (the breadth-first closure over the
`_dependants` edges, which coincide with the reverse dependency edges). -/
theorem update_for_base_service_closure {defs : List SDef} {reg : List RService}
    {names' : List Name}
    (hconn : connect_services defs = Except.ok reg) (X : Name)
    (hX : X ∈ reg.map (fun r => r.name))
    (hres : update_for_base_service reg X = Except.ok names') :
    ∀ n, n ∈ names' ↔
      Relation.ReflTransGen (fun a b => a ∈ depsOf reg b) X n := by
  have hnames' : names' = ufbs_loop (dependantsOf reg) (reg.length + 1) [X] [] := by
    unfold update_for_base_service at hres
    have hcont : (reg.map (fun r => r.name)).contains X = true :=
      contains_iff_mem_names.2 hX
    rw [if_neg (by rw [hcont]; simp)] at hres
    exact (Except.ok.inj hres).symm
  obtain ⟨hA, hB, hC⟩ := ufbs_loop_spec (dependantsOf reg) (reg.map (fun r => r.name)) X
    (dependantsOf_subset hconn) (reg.length + 1) [X] []
    (by simp)
    (by
      intro x hx
      have : x = X := by simpa using hx
      exact this ▸ hX)
    (by simp)
    (by
      intro n hn
      have : n = X := by simpa using hn
      exact this ▸ Relation.ReflTransGen.refl)
    (by intro r hr; cases hr)
  have hXres : X ∈ ufbs_loop (dependantsOf reg) (reg.length + 1) [X] [] :=
    hA (by simp)
  have hcomp : ∀ n, Relation.ReflTransGen (fun a b => b ∈ dependantsOf reg a) X n →
      n ∈ ufbs_loop (dependantsOf reg) (reg.length + 1) [X] [] := by
    intro n h
    induction h with
    | refl => exact hXres
    | tail h1 h2 ih => exact hB _ ih _ h2
  intro n
  rw [hnames']
  constructor
  · intro hn
    refine Relation.ReflTransGen.mono ?_ (hC n hn)
    intro a b hab
    exact (dependants_iff_deps hconn a b).1 hab
  · intro hr
    refine hcomp n (Relation.ReflTransGen.mono ?_ hr)
    intro a b hab
    exact (dependants_iff_deps hconn a b).2 hab

/-- C6.  The reload never reaches the stop: on the chain registry (`b`
depends on `a`, `c` on `b`), `update_for_base_service("b")` correctly keeps
exactly `b` and `c`, but the stop phase of `reload_service` then constructs
a `RunningContext` over the kept registry services, and
`ServiceAgent.__init__` reads `service.dependants` — an attribute no
registered service defines, since `connect_services` stores the reverse
edges under `_dependants` — so the construction raises `AttributeError`
before any service is stopped. -/
theorem c6_reload_stop_crash :
    connect_services c6Defs = Except.ok c6Reg ∧
    update_for_base_service c6Reg "b" = Except.ok ["b", "c"] ∧
    RunningContext.init_of_registry
        (c6Reg.filter (fun r => (["b", "c"] : List Name).contains r.name))
      = Except.error "AttributeError" :=
  ⟨rfl, rfl, rfl⟩

/-! ## C8: readiness polling bound -/


theorem ceil_tenths_pos {timeout elapsed : ℚ} (he : elapsed < timeout) :
    1 ≤ (Int.ceil ((timeout - elapsed) * 10)).toNat := by
  have h3 : 0 < ⌈(timeout - elapsed) * 10⌉ := Int.ceil_pos.2 (by nlinarith)
  omega

theorem ceil_tenths_decrease {timeout elapsed δ : ℚ} (he : elapsed < timeout)
    (hδ : 1/10 ≤ δ) :
    (Int.ceil ((timeout - (elapsed + δ)) * 10)).toNat
      < (Int.ceil ((timeout - elapsed) * 10)).toNat := by
  have hle : (timeout - (elapsed + δ)) * 10 ≤ (timeout - elapsed) * 10 - 1 := by
    nlinarith
  have h1 : ⌈(timeout - (elapsed + δ)) * 10⌉ ≤ ⌈(timeout - elapsed) * 10 - 1⌉ :=
    Int.ceil_le_ceil hle
  have h2 : ⌈(timeout - elapsed) * 10 - 1⌉ = ⌈(timeout - elapsed) * 10⌉ - 1 := by
    have h0 := Int.ceil_sub_int ((timeout - elapsed) * 10) 1
    push_cast at h0
    exact h0
  have h3 : 0 < ⌈(timeout - elapsed) * 10⌉ := Int.ceil_pos.2 (by nlinarith)
  omega

theorem ping_loop_spec {E : Type} (pingf : Nat → Except E Bool) (timeout : ℚ)
    (delays : Nat → ℚ) (hd : ∀ i, 1/10 ≤ delays i) :
    ∀ (fuel : Nat) (elapsed : ℚ) (i : Nat),
      (Int.ceil ((timeout - elapsed) * 10)).toNat < fuel →
      ∃ res calls,
        ping_loop pingf timeout delays fuel elapsed i = some (res, calls) ∧
        i ≤ calls ∧
        calls - i ≤ (Int.ceil ((timeout - elapsed) * 10)).toNat ∧
        (∀ j, i ≤ j → j + 1 < calls → pingf j = Except.ok false) ∧
        (res = Except.ok true → i < calls ∧ pingf (calls - 1) = Except.ok true) ∧
        (∀ e, res = Except.error e → i < calls ∧ pingf (calls - 1) = Except.error e) ∧
        (res = Except.ok false → ∀ j, i ≤ j → j < calls → pingf j = Except.ok false) := by
  intro fuel
  induction fuel with
  | zero => intro elapsed i hfuel; omega
  | succ fuel ih =>
    intro elapsed i hfuel
    by_cases he : elapsed < timeout
    · cases hping : pingf i with
      | error e =>
        refine ⟨Except.error e, i + 1, ?_, by omega, ?_, ?_, ?_, ?_, ?_⟩
        · simp only [ping_loop]
          rw [if_pos he, hping]
        · have := ceil_tenths_pos he
          omega
        · intro j hj hj2; omega
        · intro h; cases h
        · intro e' he'
          have : e' = e := by
            cases he'
            rfl
          refine ⟨by omega, ?_⟩
          simpa [this] using hping
        · intro h; cases h
      | ok b =>
        cases b with
        | true =>
          refine ⟨Except.ok true, i + 1, ?_, by omega, ?_, ?_, ?_, ?_, ?_⟩
          · simp only [ping_loop]
            rw [if_pos he, hping]
          · have := ceil_tenths_pos he
            omega
          · intro j hj hj2; omega
          · intro _
            exact ⟨by omega, by simpa using hping⟩
          · intro e he'; cases he'
          · intro h; cases h
        | false =>
          have hfuel' : (Int.ceil ((timeout - (elapsed + delays i)) * 10)).toNat < fuel := by
            have hdec := ceil_tenths_decrease he (hd i)
            omega
          obtain ⟨res, calls, heq, hic, hbound, ha, hb, hc, hdd⟩ :=
            ih (elapsed + delays i) (i + 1) hfuel'
          refine ⟨res, calls, ?_, by omega, ?_, ?_, ?_, ?_, ?_⟩
          · simp only [ping_loop]
            rw [if_pos he, hping]
            exact heq
          · have hdec := ceil_tenths_decrease he (hd i)
            omega
          · intro j hj hj2
            rcases Nat.eq_or_lt_of_le hj with rfl | hj'
            · exact hping
            · exact ha j (by omega) hj2
          · intro h
            obtain ⟨h1, h2⟩ := hb h
            exact ⟨by omega, h2⟩
          · intro e he'
            obtain ⟨h1, h2⟩ := hc e he'
            exact ⟨by omega, h2⟩
          · intro h j hj hj2
            rcases Nat.eq_or_lt_of_le hj with rfl | hj'
            · exact hping
            · exact hdd h j (by omega) hj2
    · refine ⟨Except.ok false, i, ?_, by omega, by omega, ?_, ?_, ?_, ?_⟩
      · simp only [ping_loop]
        rw [if_neg he]
      · intro j hj hj2; omega
      · intro h; cases h
      · intro e he'; cases he'
      · intro _ j hj hj2; omega

/-- C8.  Readiness polling: for every timeout, every sequence of ping
outcomes (`Except.error` models an exception raised by the ping), and every
sequence of real inter-call delays of at least the 0.1-second sleep, the poll
terminates; it makes at most `ceil(timeout / 0.1)` calls; it returns true iff
some call returned true before the deadline; the first true return wins (all
earlier calls returned false and no further call is made); an exception from
the ping propagates immediately; and a false result means every call made
returned false. -/
theorem c8_ping_poll_bound {E : Type} (pingf : Nat → Except E Bool) (timeout : ℚ)
    (delays : Nat → ℚ) (hd : ∀ i, 1/10 ≤ delays i) :
    ∃ res calls,
      ping_loop pingf timeout delays (ping_call_bound timeout + 1) 0 0
        = some (res, calls) ∧
      calls ≤ ping_call_bound timeout ∧
      (res = Except.ok true ↔ ∃ j, j < calls ∧ pingf j = Except.ok true) ∧
      (res = Except.ok true → pingf (calls - 1) = Except.ok true ∧
        ∀ j, j + 1 < calls → pingf j = Except.ok false) ∧
      (∀ e, res = Except.error e → pingf (calls - 1) = Except.error e ∧
        ∀ j, j + 1 < calls → pingf j = Except.ok false) ∧
      (res = Except.ok false → ∀ j, j < calls → pingf j = Except.ok false) := by
  have hb : (Int.ceil ((timeout - 0) * 10)).toNat = ping_call_bound timeout := by
    unfold ping_call_bound
    norm_num
  obtain ⟨res, calls, heq, hic, hbound, ha, hbt, hc, hdd⟩ :=
    ping_loop_spec pingf timeout delays hd (ping_call_bound timeout + 1) 0 0
      (by omega)
  refine ⟨res, calls, heq, by omega, ?_, ?_, ?_, ?_⟩
  · constructor
    · intro h
      obtain ⟨h1, h2⟩ := hbt h
      exact ⟨calls - 1, by omega, h2⟩
    · rintro ⟨j, hj, hjt⟩
      cases res with
      | error e =>
        obtain ⟨h1, h2⟩ := hc e rfl
        by_cases hj2 : j + 1 < calls
        · have := ha j (by omega) hj2
          rw [this] at hjt
          cases hjt
        · have : j = calls - 1 := by omega
          rw [this, h2] at hjt
          cases hjt
      | ok b =>
        cases b with
        | true => rfl
        | false =>
          have := hdd rfl j (by omega) hj
          rw [this] at hjt
          cases hjt
  · intro h
    obtain ⟨h1, h2⟩ := hbt h
    exact ⟨h2, fun j hj => ha j (by omega) hj⟩
  · intro e he'
    obtain ⟨h1, h2⟩ := hc e he'
    exact ⟨h2, fun j hj => ha j (by omega) hj⟩
  · intro h j hj
    exact hdd h j (by omega) hj

/-- Witness for C8: a ping that succeeds on the second call, timeout of one
second, exact 0.1-second sleeps. -/
theorem c8_ping_poll_bound_witness :
    (∀ i : Nat, (1 : ℚ)/10 ≤ (fun _ : Nat => (1 : ℚ)/10) i) ∧
    ∃ res calls,
      ping_loop (fun j : Nat => Except.ok (ε := Unit) (decide (j = 1))) 1
          (fun _ : Nat => (1 : ℚ)/10) (ping_call_bound 1 + 1) 0 0
        = some (res, calls) ∧
      calls ≤ ping_call_bound 1 ∧
      (res = Except.ok true ↔
        ∃ j, j < calls ∧ (fun j : Nat => Except.ok (ε := Unit) (decide (j = 1))) j
          = Except.ok true) ∧
      (res = Except.ok true →
        (fun j : Nat => Except.ok (ε := Unit) (decide (j = 1))) (calls - 1)
            = Except.ok true ∧
        ∀ j, j + 1 < calls →
          (fun j : Nat => Except.ok (ε := Unit) (decide (j = 1))) j
            = Except.ok false) ∧
      (∀ e, res = Except.error e →
        (fun j : Nat => Except.ok (ε := Unit) (decide (j = 1))) (calls - 1)
            = Except.error e ∧
        ∀ j, j + 1 < calls →
          (fun j : Nat => Except.ok (ε := Unit) (decide (j = 1))) j
            = Except.ok false) ∧
      (res = Except.ok false → ∀ j, j < calls →
        (fun j : Nat => Except.ok (ε := Unit) (decide (j = 1))) j
          = Except.ok false) :=
  ⟨fun _ => le_refl _,
    c8_ping_poll_bound (fun j : Nat => Except.ok (decide (j = 1))) 1
      (fun _ : Nat => (1 : ℚ)/10) (fun _ => le_refl _)⟩


/-! ## C2: service_failed double pop -/

/-- C2.  On the DAG registry `s`, `a` (depends on `s`), `b` (depends on `s`
and `a`) — in that insertion order — `service_failed("s")` raises `KeyError`:
the recursion triggered by `a` already pops `b`, and the outer snapshot
iteration then pops `b` a second time.  The claim says `service_failed`
completes without error on every DAG registry. -/
theorem c2_service_failed_keyerror :
    service_failed "s" (RunningContext.init
      [ { name := "s", dependencies := [], dependants := [] },
        { name := "a", dependencies := ["s"], dependants := [] },
        { name := "b", dependencies := ["s", "a"], dependants := [] } ]) =
      Except.error RCErr.keyError := rfl

end Miniboss
